import Mathlib

/-!
Verification development for the BudgetSnap receipt-text-to-transaction
resolution pipeline.  The TypeScript/Deno sources are shallowly embedded:

* `supabase/functions/_shared/categorizer.ts` — keyword categorizer;
* the legacy rule-based receipt parser (`parseReceiptText` and its four
  sub-extractions, with their regular expressions embedded via a small
  backtracking regex engine that mirrors JavaScript regex semantics);
* the AI structuring extractor's response handling (`extractJson`,
  `validate`);
* the `process_image` orchestrator's structuring section (AI path,
  legacy fallback, invalid-result error).

JavaScript numbers appearing as monetary amounts are modelled as `Rat`
(the amounts manipulated here are decimal literals whose comparisons and
maxima agree with exact rational arithmetic); strings are Lean `String`s
over their character lists (the receipts in scope are ASCII, where
JavaScript's `toLowerCase`, `trim` and UTF-16 lengths agree with their
Lean counterparts).
-/

namespace BudgetSnap

/-- JavaScript whitespace class `\s`, restricted to its ASCII members. -/
def isWS (c : Char) : Bool :=
  c = ' ' || c = '\t' || c = '\n' || c = '\r' || c = '\x0b' || c = '\x0c'

/-- JavaScript word character class `\w` (used by the `\b` boundary). -/
def wordChar (c : Char) : Bool :=
  c.isAlphanum || c = '_'

/-- Numeric value of a decimal digit character. -/
def digVal (c : Char) : Nat := c.toNat - 48

/-- Decimal digit character for a value below 10. -/
def digChar (n : Nat) : Char := Char.ofNat (48 + n)

/-- Value of a list of decimal digit characters (most significant first). -/
def natOfDigits (l : List Char) : Nat :=
  l.foldl (fun acc c => 10 * acc + digVal c) 0

/-! ## A small backtracking regex engine

The legacy parser and the AI extractor are written around JavaScript
regular expressions.  We embed the regexes literally as syntax trees and
run them with a backtracking matcher whose alternative order reproduces
the JavaScript engine's (leftmost match, alternation in written order,
greedy repetition).  `\b` needs one character of left context, so the
matcher state carries the previously consumed character. -/

/-- Matcher state: previous character (for `\b`), remaining input,
captured groups (group index paired with captured characters). -/
structure MState where
  prev : Option Char
  rest : List Char
  caps : List (Nat × List Char)

/-- Regex syntax: empty, character class, sequencing, ordered
alternation, greedy star, capture group, word boundary `\b`, and the
end-of-input anchor `$`. -/
inductive RE where
  | eps : RE
  | cls (p : Char → Bool) : RE
  | seq (a b : RE) : RE
  | alt (a b : RE) : RE
  | star (a : RE) : RE
  | grp (i : Nat) (a : RE) : RE
  | bnd : RE
  | endS : RE

/-- Is there a `\b` boundary between these two (optional) characters? -/
def atBoundary (prev next : Option Char) : Bool :=
  (match prev with | some c => wordChar c | none => false)
    != (match next with | some c => wordChar c | none => false)

/-- Run a regex from one state with star-handling delegated to `sf`,
returning every reachable end state in the JavaScript backtracking
order (first element = the match the engine commits to). -/
def reRunCore (sf : RE → MState → List MState) : RE → MState → List MState
  | .eps, st => [st]
  | .cls p, st =>
    match st.rest with
    | [] => []
    | c :: t => if p c then [⟨some c, t, st.caps⟩] else []
  | .seq a b, st => (reRunCore sf a st).flatMap (fun st' => reRunCore sf b st')
  | .alt a b, st => reRunCore sf a st ++ reRunCore sf b st
  | .star a, st => sf a st
  | .grp i a, st =>
    (reRunCore sf a st).map (fun st' =>
      ⟨st'.prev, st'.rest, (i, st.rest.take (st.rest.length - st'.rest.length)) :: st'.caps⟩)
  | .bnd, st => if atBoundary st.prev st.rest.head? then [st] else []
  | .endS, st => if st.rest.isEmpty then [st] else []

/-- The full matcher: greedy `star` prefers iterating; `f` is fuel
bounding star unfoldings (every starred subexpression used here
consumes at least one character per iteration, so fuel
`input length + 1` is exact). -/
def reRun (f : Nat) : RE → MState → List MState :=
  Nat.rec (motive := fun _ => RE → MState → List MState)
    (reRunCore (fun _ st => [st]))
    (fun _ prev =>
      reRunCore (fun a st => ((prev a st).flatMap (fun st' => prev (.star a) st')) ++ [st]))
    f

theorem reRun_zero (r : RE) (st : MState) :
    reRun 0 r st = reRunCore (fun _ st' => [st']) r st := rfl

theorem reRun_succ (f : Nat) (r : RE) (st : MState) :
    reRun (f + 1) r st
      = reRunCore (fun a st' =>
          ((reRun f a st').flatMap (fun st'' => reRun f (.star a) st'')) ++ [st']) r st := rfl

/-- Try the regex at successive start positions (leftmost match first),
returning the matched characters and the captures of the first match. -/
def scanPos (f : Nat) (r : RE) : Option Char → List Char → Option (List Char × List (Nat × List Char))
  | prev, [] =>
    match (reRun f r ⟨prev, [], []⟩).head? with
    | some st => some (([] : List Char).take (0 - st.rest.length), st.caps)
    | none => none
  | prev, c :: t =>
    match (reRun f r ⟨prev, c :: t, []⟩).head? with
    | some st => some ((c :: t).take ((c :: t).length - st.rest.length), st.caps)
    | none => scanPos f r (some c) t

/-- JavaScript `text.match(re)`: the first match of `re` in `s`
(together with its capture groups), or `none`. -/
def matchFirst (r : RE) (s : List Char) : Option (List Char × List (Nat × List Char)) :=
  scanPos (s.length + 1) r none s

/-- Character matched case-insensitively (`/i` flag). -/
def charCI (c : Char) : RE := .cls (fun x => x.toLower = c.toLower)

/-- Literal character. -/
def charEq (c : Char) : RE := .cls (fun x => x = c)

/-- Case-insensitive literal word. -/
def strCI (w : String) : RE := w.data.foldr (fun c r => .seq (charCI c) r) .eps

/-- Ordered alternation over a list (first alternative preferred). -/
def altL : List RE → RE
  | [] => .cls (fun _ => false)
  | [r] => r
  | r :: rs => .alt r (altL rs)

/-- Sequencing of a list of regexes. -/
def seqL : List RE → RE := fun l => l.foldr .seq .eps

/-- `\d`. -/
def digitC : RE := .cls Char.isDigit

/-- `\s` (ASCII members). -/
def wsC : RE := .cls isWS

/-- `r+` (greedy). -/
def plusR (r : RE) : RE := .seq r (.star r)

/-- `r?` (greedy). -/
def optR (r : RE) : RE := .alt r .eps

/-- `r{1,2}` (greedy). -/
def rep1to2 (r : RE) : RE := .seq r (optR r)

/-- `r{4}`. -/
def rep4 (r : RE) : RE := .seq r (.seq r (.seq r r))

/-! ## String helpers mirroring the JavaScript operations used -/

/-- `needle.isPrefixOf hay` on raw character lists. -/
def startsWithL (needle hay : List Char) : Bool :=
  match needle, hay with
  | [], _ => true
  | _ :: _, [] => false
  | n :: ns, c :: cs => n = c && startsWithL ns cs

/-- JavaScript `hay.includes(needle)` on character lists. -/
def containsSub (hay needle : List Char) : Bool :=
  match hay with
  | [] => startsWithL needle []
  | _ :: t => startsWithL needle hay || containsSub t needle

/-- JavaScript `hay.includes(needle)` on strings. -/
def containsSubS (hay needle : String) : Bool :=
  containsSub hay.data needle.data

/-- JavaScript `s.toLowerCase()` (ASCII). -/
def lowerStr (s : String) : String := String.mk (s.data.map Char.toLower)

/-- JavaScript `s.trim()` (ASCII whitespace). -/
def trimChars (l : List Char) : List Char :=
  ((l.dropWhile isWS).reverse.dropWhile isWS).reverse

/-- JavaScript `text.split('\n')`. -/
def splitNl : List Char → List (List Char)
  | [] => [[]]
  | c :: rest =>
    if c = '\n' then [] :: splitNl rest
    else
      match splitNl rest with
      | [] => [[c]]
      | l :: ls => (c :: l) :: ls

/-- `ocrText.split('\n').map(trim).filter(nonempty)` from
`parseReceiptText` (receipt-parser source, line 9). -/
def linesOf (text : String) : List String :=
  ((splitNl text.data).map (fun l => String.mk (trimChars l))).filter (fun s => s ≠ "")

/-! ## Keyword categorizer (`_shared/categorizer.ts`) -/

/-- The `CATEGORY_KEYWORDS` table, in its declared (= iteration) order. -/
def CATEGORY_KEYWORDS : List (String × List String) :=
  [("Dining",
    ["starbucks", "mcdonald", "kfc", "restaurant", "cafe", "ubereats", "doordash",
     "pizza", "burger", "subway", "tim hortons", "wendy", "taco bell", "domino",
     "food", "bar", "pub", "bistro", "diner", "grill"]),
   ("Groceries",
    ["walmart", "costco", "no frills", "loblaws", "aldi", "kroger", "metro",
     "supermarket", "grocery", "food basics", "sobeys", "safeway", "whole foods",
     "produce", "market"]),
   ("Transport",
    ["uber", "lyft", "gas", "shell", "esso", "petro", "bp", "metro pass",
     "fuel", "taxi", "bus", "transit", "parking", "toll", "car wash",
     "vehicle", "automotive"]),
   ("Utilities",
    ["hydro", "electric", "water", "gas bill", "internet", "rogers", "bell",
     "verizon", "phone", "cable", "utility", "power", "heating", "cooling"]),
   ("Rent",
    ["rent", "landlord", "property mgmt", "lease", "housing", "apartment",
     "condo", "mortgage"]),
   ("Income",
    ["salary", "payroll", "deposit", "credited", "refund", "transfer in",
     "bonus", "commission", "dividend", "interest", "payment received"]),
   ("Shopping",
    ["amazon", "target", "best buy", "clothing", "shoes", "electronics",
     "department store", "mall", "retail", "purchase"]),
   ("Healthcare",
    ["pharmacy", "doctor", "hospital", "clinic", "medical", "dental",
     "prescription", "health", "insurance"]),
   ("Entertainment",
    ["movie", "theater", "netflix", "spotify", "game", "concert",
     "entertainment", "streaming", "subscription"])]

/-- The Income keyword list (`CATEGORY_KEYWORDS['Income']`). -/
def incomeKeywords : List String :=
  ["salary", "payroll", "deposit", "credited", "refund", "transfer in",
   "bonus", "commission", "dividend", "interest", "payment received"]

/-- Does some keyword of `kws` occur as a substring of `lower`? -/
def keywordHit (lower : String) (kws : List String) : Bool :=
  kws.any (fun k => containsSubS lower k)

/-- `categorizeTransaction` from `_shared/categorizer.ts`: income
pre-check for credits, then first keyword hit in table order (Income
skipped for non-credits), else `"Uncategorized"`. -/
def categorizeTransaction (description : String) (ty : String) : String :=
  let lower := lowerStr description
  if ty = "credit" && keywordHit lower incomeKeywords then "Income"
  else
    match CATEGORY_KEYWORDS.findSome? (fun ck =>
      if ck.1 = "Income" && ty ≠ "credit" then none
      else if keywordHit lower ck.2 then some ck.1 else none) with
    | some cat => cat
    | none => "Uncategorized"

/-! ## Legacy parser: direction extraction (`extractType`) -/

/-- The `creditIndicators` list from `extractType`. -/
def creditIndicators : List String :=
  ["credited", "refund", "salary", "payroll", "deposit", "bonus",
   "commission", "dividend", "interest", "payment received", "transfer in",
   "income", "credit", "received"]

/-- `extractType` from the receipt parser: `"credit"` when the
lower-cased text contains a credit indicator, else `"debit"`. -/
def extractType (text : String) : String :=
  if creditIndicators.any (fun k => containsSubS (lowerStr text) k) then "credit"
  else "debit"

/-! ## Legacy parser: amount extraction (`extractAmount`)

The currency regexes are `/\$(\d{1,3}(?:,\d{3})*(?:\.\d{2})?)/g` and
`/[€£¥₹₽](\d{1,3}(?:,\d{3})*(?:\.\d{2})?)/g`.  After the symbol the
token grammar is deterministic (each repetition consumes at least one
character and nothing after a committed part can force backtracking),
so it is embedded as a direct scanner; `matchAll` semantics: scan left
to right, resuming after each match, advancing one character when the
position does not match. -/

/-- The non-dollar currency symbols of the second regex. -/
def isOtherCur (c : Char) : Bool :=
  c = '€' || c = '£' || c = '¥' || c = '₹' || c = '₽'

/-- Up to `n` leading decimal digits (`\d{1,3}` greedy), with the rest. -/
def takeDigitsUpTo : Nat → List Char → (List Char × List Char)
  | 0, l => ([], l)
  | _ + 1, [] => ([], [])
  | n + 1, c :: t =>
    if c.isDigit then
      let (a, b) := takeDigitsUpTo n t
      (c :: a, b)
    else ([], c :: t)

/-- `(?:,\d{3})*` greedy: collected group digits and the rest. -/
def commaGroups : List Char → (List Char × List Char)
  | ',' :: a :: b :: c :: rest =>
    if a.isDigit && b.isDigit && c.isDigit then
      (a :: b :: c :: (commaGroups rest).1, (commaGroups rest).2)
    else ([], ',' :: a :: b :: c :: rest)
  | l => ([], l)

/-- `(?:\.\d{2})?` greedy: the two fraction digits if present. -/
def fracPart (l : List Char) : (Option (Char × Char) × List Char) :=
  match l with
  | '.' :: a :: b :: rest =>
    if a.isDigit && b.isDigit then (some (a, b), rest)
    else (none, '.' :: a :: b :: rest)
  | l => (none, l)

/-- Value of a currency-token match starting at `l` (digits of the
integer part with commas removed, plus the optional two-digit
fraction): `parseFloat(match[1].replace(/,/g, ''))`. -/
def curTokVal (l : List Char) : ℚ :=
  let d1 := (takeDigitsUpTo 3 l).1
  let r1 := (takeDigitsUpTo 3 l).2
  match (fracPart (commaGroups r1).2).1 with
  | some ab =>
    mkRat (natOfDigits (d1 ++ (commaGroups r1).1) * 100
             + (10 * digVal ab.1 + digVal ab.2)) 100
  | none => (natOfDigits (d1 ++ (commaGroups r1).1) : ℚ)

/-- The numeric token after a currency symbol (its value and the
remaining input), `none` when the position does not match. -/
def parseCurrencyTok (l : List Char) : Option (ℚ × List Char) :=
  if (takeDigitsUpTo 3 l).1 = [] then none
  else some (curTokVal l, (fracPart (commaGroups (takeDigitsUpTo 3 l).2).2).2)

theorem takeDigitsUpTo_len (n : Nat) (l : List Char) :
    (takeDigitsUpTo n l).1.length + (takeDigitsUpTo n l).2.length = l.length := by
  induction n generalizing l with
  | zero => simp [takeDigitsUpTo]
  | succ n ih =>
    cases l with
    | nil => simp [takeDigitsUpTo]
    | cons c t =>
      by_cases h : c.isDigit
      · simp only [takeDigitsUpTo, h, if_pos]
        have := ih t
        simp only [List.length_cons]
        omega
      · simp [takeDigitsUpTo, h]

theorem commaGroups_len (l : List Char) :
    (commaGroups l).2.length ≤ l.length := by
  rw [commaGroups.eq_def]
  split
  · rename_i a b c rest
    split
    · have ih := commaGroups_len rest
      dsimp only
      simp only [List.length_cons]
      omega
    · simp
  · simp
  termination_by l.length

theorem fracPart_len (l : List Char) :
    (fracPart l).2.length ≤ l.length := by
  rw [fracPart.eq_def]
  split
  · rename_i a b rest
    split
    · simp only [List.length_cons]
      omega
    · simp
  · simp

theorem parseCurrencyTok_len {l r : List Char} {q : ℚ}
    (h : parseCurrencyTok l = some (q, r)) : r.length < l.length := by
  unfold parseCurrencyTok at h
  by_cases h1 : (takeDigitsUpTo 3 l).1 = []
  · rw [if_pos h1] at h
    exact absurd h (by simp)
  · rw [if_neg h1] at h
    have hr : r = (fracPart (commaGroups (takeDigitsUpTo 3 l).2).2).2 := by
      have h2 := Option.some.inj h
      exact (congrArg Prod.snd h2).symm
    have e1 := takeDigitsUpTo_len 3 l
    have e2 := commaGroups_len (takeDigitsUpTo 3 l).2
    have e3 := fracPart_len (commaGroups (takeDigitsUpTo 3 l).2).2
    have hpos : 0 < (takeDigitsUpTo 3 l).1.length := by
      cases hd : (takeDigitsUpTo 3 l).1 with
      | nil => exact absurd hd h1
      | cons a b => simp [hd]
    rw [hr]
    omega

/-- Fueled `matchAll` scan for a currency regex: at each position, a
symbol character followed by a numeric token yields the token's value
and the scan resumes after the match; otherwise the scan advances one
character.  One unit of fuel is spent per step and every match consumes
at least one character, so fuel `input length` is exact. -/
def scanCurrencyF (sym : Char → Bool) : Nat → List Char → List ℚ
  | 0, _ => []
  | _ + 1, [] => []
  | f + 1, c :: rest =>
    if sym c then
      match parseCurrencyTok rest with
      | some qr => qr.1 :: scanCurrencyF sym f qr.2
      | none => scanCurrencyF sym f rest
    else scanCurrencyF sym f rest

/-- `text.matchAll(currency regex)`: the values of every
currency-symbol-prefixed numeric token (before the positivity filter),
for symbols satisfying `sym`. -/
def scanCurrency (sym : Char → Bool) (l : List Char) : List ℚ :=
  scanCurrencyF sym l.length l

/-- All currency-tagged token values in the text: the `$` pass followed
by the `[€£¥₹₽]` pass (`extractAmount`, first phase, before its
`amount > 0` push condition). -/
def currencyTokensAll (text : String) : List ℚ :=
  scanCurrency (fun c => c = '$') text.data ++ scanCurrency isOtherCur text.data

/-- The `amounts` array of `extractAmount`: currency-tagged values that
passed `!isNaN(amount) && amount > 0`. -/
def currencyAmounts (text : String) : List ℚ :=
  (currencyTokensAll text).filter (fun q => decide (0 < q))

/-- `Math.max` over a nonempty list given as head and tail. -/
def maxQne (x : ℚ) (xs : List ℚ) : ℚ := xs.foldl max x

/-- Strip currency symbols (`replace(/[$€£¥₹₽]/g, '')`). -/
def stripCur (l : List Char) : List Char :=
  l.filter (fun c => !(c = '$' || isOtherCur c))

/-- Strip commas (`replace(/,/g, '')`). -/
def stripCommas (l : List Char) : List Char :=
  l.filter (fun c => c ≠ ',')

theorem dropWhile_len_le (p : Char → Bool) (l : List Char) :
    (l.dropWhile p).length ≤ l.length :=
  List.Sublist.length_le (List.dropWhile_sublist _)

/-- Fueled whitespace-run collapse; fuel `input length` is exact since
each step consumes at least one character. -/
def collapseWSF : Nat → List Char → List Char
  | 0, _ => []
  | _ + 1, [] => []
  | f + 1, c :: rest =>
    if isWS c then ' ' :: collapseWSF f (rest.dropWhile isWS)
    else c :: collapseWSF f rest

/-- Collapse whitespace runs (`replace(/\s+/g, ' ')` — written as the
scanner the regex engine performs). -/
def collapseWS (l : List Char) : List Char := collapseWSF l.length l

/-- Value and rest of a `\d+\.?\d*` token starting at a digit
(`parseFloat` of the matched text). -/
def numTok (l : List Char) : (ℚ × List Char) :=
  let ds := l.takeWhile Char.isDigit
  let r1 := l.dropWhile Char.isDigit
  if r1.head? = some '.' then
    (mkRat (natOfDigits ds * 10 ^ (r1.tail.takeWhile Char.isDigit).length
              + natOfDigits (r1.tail.takeWhile Char.isDigit))
        (10 ^ (r1.tail.takeWhile Char.isDigit).length),
     r1.tail.dropWhile Char.isDigit)
  else ((natOfDigits ds : ℚ), r1)

theorem numTok_len {l : List Char} (hl : l ≠ [])
    (hd : ∀ c, l.head? = some c → c.isDigit) : (numTok l).2.length < l.length := by
  cases l with
  | nil => exact absurd rfl hl
  | cons c t =>
    have hc : c.isDigit := hd c rfl
    have h1 : (c :: t).dropWhile Char.isDigit = t.dropWhile Char.isDigit := by
      simp [List.dropWhile, hc]
    have h2 : (t.dropWhile Char.isDigit).length ≤ t.length := dropWhile_len_le _ _
    unfold numTok
    rw [h1]
    by_cases hdot : (t.dropWhile Char.isDigit).head? = some '.'
    · rw [if_pos hdot]
      have h3 : ((t.dropWhile Char.isDigit).tail.dropWhile Char.isDigit).length
          ≤ (t.dropWhile Char.isDigit).tail.length := dropWhile_len_le _ _
      have h4 : (t.dropWhile Char.isDigit).tail.length + 1 = (t.dropWhile Char.isDigit).length := by
        cases hr : t.dropWhile Char.isDigit with
        | nil => rw [hr] at hdot; simp at hdot
        | cons d r2 => simp
      simp only [List.length_cons]
      omega
    · rw [if_neg hdot]
      simp only [List.length_cons]
      omega

/-- First `\d+\.?\d*` token value in the input, if any
(the `/(\d+\.?\d*)/` match of `extractNumberFromLine`). -/
def firstNumTok : List Char → Option ℚ
  | [] => none
  | c :: rest => if c.isDigit then some (numTok (c :: rest)).1 else firstNumTok rest

/-- `extractNumberFromLine` from the receipt parser. -/
def extractNumberFromLine (line : String) : ℚ :=
  let cleaned := collapseWS (stripCommas (stripCur line.data))
  match firstNumTok cleaned with
  | some q => q
  | none => 0

/-- Fueled scan for `\d+\.?\d*` tokens; fuel `input length` is exact
since a token consumes at least its leading digit. -/
def allNumToksF : Nat → List Char → List ℚ
  | 0, _ => []
  | _ + 1, [] => []
  | f + 1, c :: rest =>
    if c.isDigit then
      (numTok (c :: rest)).1 :: allNumToksF f (numTok (c :: rest)).2
    else allNumToksF f rest

/-- All `\d+\.?\d*` token values (`match(/\d+\.?\d*/g)`). -/
def allNumToks (l : List Char) : List ℚ := allNumToksF l.length l

/-- `extractAllNumbers` from the receipt parser (strip symbols and
commas, tokenize, keep the positive values). -/
def extractAllNumbers (text : String) : List ℚ :=
  (allNumToks (stripCommas (stripCur text.data))).filter (fun q => decide (0 < q))

/-- The total/amount/balance line scan of `extractAmount`: the first
line containing one of the keywords whose `extractNumberFromLine`
value is positive. -/
def firstTotalAmount (lines : List String) : Option ℚ :=
  lines.findSome? (fun line =>
    let lower := lowerStr line
    if containsSubS lower "total" || containsSubS lower "amount" || containsSubS lower "balance" then
      let a := extractNumberFromLine line
      if 0 < a then some a else none
    else none)

/-- `extractAmount` from the receipt parser: largest positive
currency-tagged value, else first positive value on a
total/amount/balance line, else largest bare number in `(0, 100000)`,
else `0`. -/
def extractAmount (text : String) (lines : List String) : ℚ :=
  match currencyAmounts text with
  | q :: qs => maxQne q qs
  | [] =>
    match firstTotalAmount lines with
    | some a => a
    | none =>
      match (extractAllNumbers text).filter (fun n => decide (0 < n) && decide (n < 100000)) with
      | m :: ms => maxQne m ms
      | [] => 0

/-! ## Legacy parser: merchant extraction (`extractMerchant`)

The two merchant regexes are
`/^(Amazon|Walmart|Costco|Target|Starbucks|McDonald|Tim Hortons|Uber|Lyft|Netflix|Spotify|Apple|Google|Microsoft|PayPal)$/i`
(whole-line) and the same alternation followed by `\s+`, unanchored.
Both are hand-embedded (the alternation is over fixed words, none a
prefix of another, so leftmost-position-then-first-alternative order is
the whole of the matching semantics). -/

/-- The fixed well-known merchant list, in alternation order. -/
def MERCHANTS : List String :=
  ["Amazon", "Walmart", "Costco", "Target", "Starbucks", "McDonald", "Tim Hortons",
   "Uber", "Lyft", "Netflix", "Spotify", "Apple", "Google", "Microsoft", "PayPal"]

/-- Case-insensitive match of `needle` against the start of `hay`,
returning the consumed original-case characters and the rest. -/
def takeCI : List Char → List Char → Option (List Char × List Char)
  | [], l => some ([], l)
  | _ :: _, [] => none
  | n :: ns, c :: cs =>
    if c.toLower = n.toLower then (takeCI ns cs).map (fun p => (c :: p.1, p.2)) else none

/-- At this position, the first merchant name (in alternation order)
matching case-insensitively and followed by whitespace (`\s+`); the
returned characters are the original-case matched text (`match[1]`). -/
def nameWsAt (l : List Char) : Option (List Char) :=
  MERCHANTS.findSome? (fun n =>
    match takeCI n.data l with
    | some p =>
      match p.2.head? with
      | some c => if isWS c then some p.1 else none
      | none => none
    | none => none)

/-- Leftmost match of the unanchored `(names)\s+` regex in the line. -/
def p2Scan : List Char → Option (List Char)
  | [] => none
  | c :: rest =>
    match nameWsAt (c :: rest) with
    | some m => some m
    | none => p2Scan rest

/-- Both merchant patterns tried on one line (whole-line first, then
the unanchored name-plus-whitespace pattern), as the inner loop of
`extractMerchant` does. -/
def merchantHit (line : String) : Option String :=
  if MERCHANTS.any (fun n => lowerStr line = lowerStr n) then some line
  else (p2Scan line.data).map String.mk

/-- The character class of `/^\d+[\d\s\/\-.:*]*$/` after its leading
digits. -/
def numSymClass (c : Char) : Bool :=
  c.isDigit || isWS c || c = '/' || c = '-' || c = '.' || c = ':' || c = '*'

/-- `/^\d+[\d\s\/\-.:*]*$/` (the class contains `\d`, so this is:
nonempty, leading digit, and every following character in the class). -/
def pureNumLine (l : List Char) : Bool :=
  match l with
  | [] => false
  | c :: t => c.isDigit && t.all numSymClass

/-- `/^\$\d/`. -/
def startsPrice (l : List Char) : Bool :=
  match l with
  | '$' :: d :: _ => d.isDigit
  | _ => false

/-- The lower-cased administrative-noise substrings excluded from
merchant candidates. -/
def merchantNoise : List String :=
  ["transaction", "details", "posted", "card number", "category", "budget",
   "note", "merchant", "website", "fri", "mon", "tue", "wed", "thu", "sat", "sun"]

/-- The candidate filter of `extractMerchant`. -/
def isCandidate (line : String) : Bool :=
  let lower := lowerStr line
  decide (2 < line.length) && decide (line.length < 50)
    && line.data.any Char.isAlpha
    && !(merchantNoise.any (fun k => containsSubS lower k))
    && !(pureNumLine line.data)
    && !(startsPrice line.data)
    && !(containsSubS line "866-")
    && !(containsSubS line "phone")

/-- First candidate of minimal length (= `sort((a,b)=>a.length-b.length)[0]`
for the stable JavaScript sort). -/
def shortestFirst (c : String) (cs : List String) : String :=
  cs.foldl (fun b x => if x.length < b.length then x else b) c

/-- `extractMerchant` from the receipt parser. -/
def extractMerchant (lines : List String) : String :=
  match lines.findSome? merchantHit with
  | some m => m
  | none =>
    match lines.filter isCandidate with
    | [] => "Unknown Merchant"
    | c :: cs => shortestFirst c cs

/-! ## Legacy parser: date extraction (`extractDate`)

The five date regexes are embedded literally in the engine above.  The
`new Date(dateStr)` fallback is a JavaScript builtin; `jsDateISO` below
models the V8 parser restricted to the string shapes the five patterns
can produce (a numeric triple, or a date written with a month word),
assuming a UTC runtime (so `toISOString` does not shift the day). -/

/-- The three-letter month names, in source order. -/
def monthNames : List String :=
  ["Jan", "Feb", "Mar", "Apr", "May", "Jun", "Jul", "Aug", "Sep", "Oct", "Nov", "Dec"]

/-- The weekday abbreviations of the first date pattern. -/
def weekdayNames : List String :=
  ["Mon", "Tue", "Wed", "Thu", "Fri", "Sat", "Sun"]

/-- The `monthMap` lookup table (exact-case keys). -/
def monthCode (m : String) : Option String :=
  (monthNames.zip
    ["01", "02", "03", "04", "05", "06", "07", "08", "09", "10", "11", "12"]).lookup m

/-- Month alternation `(Jan|Feb|...|Dec)` under `/i`. -/
def monthAltCI : RE := altL (monthNames.map strCI)

/-- Weekday alternation `(Mon|Tue|...|Sun)` under `/i`. -/
def wdAltCI : RE := altL (weekdayNames.map strCI)

/-- `,?`. -/
def commaOpt : RE := optR (charEq ',')

/-- `\s+`. -/
def wsPlus : RE := plusR wsC

/-- `[\/\-.]`. -/
def sepChar (c : Char) : Bool := c = '/' || c = '-' || c = '.'

/-- `[\/\-.]` as a regex. -/
def sepC : RE := .cls sepChar

/-- `[a-z]` under `/i`. -/
def alphaCI : RE := .cls Char.isAlpha

/-- `/\b(Mon|...|Sun),?\s+(Jan|...|Dec)\s+(\d{1,2}),?\s+(\d{4})\b/gi`. -/
def dateP1 : RE :=
  seqL [.bnd, wdAltCI, commaOpt, wsPlus, monthAltCI, wsPlus,
        rep1to2 digitC, commaOpt, wsPlus, rep4 digitC, .bnd]

/-- `/\b(Jan|...|Dec)\s+(\d{1,2}),?\s+(\d{4})\b/gi`. -/
def dateP2 : RE :=
  seqL [.bnd, monthAltCI, wsPlus, rep1to2 digitC, commaOpt, wsPlus, rep4 digitC, .bnd]

/-- `/\b(\d{1,2})[\/\-.](\d{1,2})[\/\-.](\d{4})\b/g`. -/
def dateP3 : RE :=
  seqL [.bnd, rep1to2 digitC, sepC, rep1to2 digitC, sepC, rep4 digitC, .bnd]

/-- `/\b(\d{4})[\/\-.](\d{1,2})[\/\-.](\d{1,2})\b/g`. -/
def dateP4 : RE :=
  seqL [.bnd, rep4 digitC, sepC, rep1to2 digitC, sepC, rep1to2 digitC, .bnd]

/-- `/\b(\d{1,2})\s+(Jan|...|Dec)[a-z]*\s+(\d{4})\b/gi`. -/
def dateP5 : RE :=
  seqL [.bnd, rep1to2 digitC, wsPlus, monthAltCI, .star alphaCI, wsPlus, rep4 digitC, .bnd]

/-- The five date patterns in trial order. -/
def datePatterns : List RE := [dateP1, dateP2, dateP3, dateP4, dateP5]

/-- `/(Jan|...|Dec)\s+(\d{1,2}),?\s+(\d{4})/i` with its three groups. -/
def innerMonthPat : RE :=
  seqL [.grp 1 monthAltCI, wsPlus, .grp 2 (rep1to2 digitC), commaOpt, wsPlus,
        .grp 3 (rep4 digitC)]

/-- Gregorian leap year. -/
def isLeap (y : Nat) : Bool := y % 4 = 0 && (y % 100 ≠ 0 || y % 400 = 0)

/-- Days in a month (months numbered from 1). -/
def daysInMonth (y m : Nat) : Nat :=
  if m = 2 then (if isLeap y then 29 else 28)
  else if m = 4 || m = 6 || m = 9 || m = 11 then 30
  else 31

/-- Zero-pad a number to two digits. -/
def pad2N (n : Nat) : String := if n < 10 then "0" ++ toString n else toString n

/-- Zero-pad a number to four digits. -/
def pad4N (n : Nat) : String :=
  if n < 10 then "000" ++ toString n
  else if n < 100 then "00" ++ toString n
  else if n < 1000 then "0" ++ toString n
  else toString n

/-- `YYYY-MM-DD` rendering. -/
def isoOfYMD (y m d : Nat) : String := pad4N y ++ "-" ++ pad2N m ++ "-" ++ pad2N d

/-- Day-overflow normalization of the V8 legacy parser (`MakeDay`):
a day beyond the month's end (at most 31) rolls into the next month. -/
def isoOfNorm (y m d : Nat) : String :=
  if d ≤ daysInMonth y m then isoOfYMD y m d
  else if m = 12 then isoOfYMD (y + 1) 1 (d - daysInMonth y m)
  else isoOfYMD y (m + 1) (d - daysInMonth y m)

/-- A string that is exactly `digits sep digits sep digits`. -/
def parseNumericTriple (l : List Char) :
    Option (List Char × Char × List Char × Char × List Char) :=
  let a := l.takeWhile Char.isDigit
  let r1 := l.dropWhile Char.isDigit
  if a = [] then none
  else
    match r1 with
    | s1 :: r2 =>
      if sepChar s1 then
        let b := r2.takeWhile Char.isDigit
        let r3 := r2.dropWhile Char.isDigit
        if b = [] then none
        else
          match r3 with
          | s2 :: r4 =>
            if sepChar s2 then
              let c := r4.takeWhile Char.isDigit
              let r5 := r4.dropWhile Char.isDigit
              if c = [] then none
              else if r5 = [] then some (a, s1, b, s2, c) else none
            else none
          | [] => none
      else none
    | [] => none

/-- Fueled lexer splitting a date string into alpha words
(tagged `true`) and digit runs (tagged `false`). -/
def lexTokensF : Nat → List Char → List (Bool × List Char)
  | 0, _ => []
  | _ + 1, [] => []
  | f + 1, c :: rest =>
    if c.isAlpha then
      (true, (c :: rest).takeWhile Char.isAlpha)
        :: lexTokensF f ((c :: rest).dropWhile Char.isAlpha)
    else if c.isDigit then
      (false, (c :: rest).takeWhile Char.isDigit)
        :: lexTokensF f ((c :: rest).dropWhile Char.isDigit)
    else lexTokensF f rest

/-- Word/number tokens of a date string. -/
def lexTokens (l : List Char) : List (Bool × List Char) := lexTokensF l.length l

/-- Month number (1–12) of a word whose first three letters name a
month, case-insensitively (V8 keyword matching on e.g. `Sept`,
`september`). -/
def monthIdx (w : List Char) : Option Nat :=
  if 3 ≤ w.length then
    monthNames.enum.findSome? (fun p =>
      if (w.take 3).map Char.toLower = p.2.data.map Char.toLower then some (p.1 + 1)
      else none)
  else none

/-- Is this word a weekday word (first three letters, case-insensitive)? -/
def isWeekdayWord (w : List Char) : Bool :=
  decide (3 ≤ w.length) && weekdayNames.any (fun d =>
    (w.take 3).map Char.toLower = d.data.map Char.toLower)

/-- `Modelled from V8`: a date written with a month word, a 1–2 digit
day and a 4-digit year (in either `Mon D Y` or `D Mon Y` arrangement,
possibly with a weekday word), as the V8 legacy parser reads the
shapes the five date patterns can produce. -/
def monthNameDate (l : List Char) : Option String :=
  let toks := lexTokens l
  let words := (toks.filter (fun t => t.1 = true)).map Prod.snd
  let nums := (toks.filter (fun t => t.1 = false)).map Prod.snd
  match words.filterMap monthIdx, nums with
  | [mo], [dTok, yTok] =>
    if ((words.filter (fun w => monthIdx w = none)).all isWeekdayWord)
        && decide (dTok.length ≤ 2) && decide (yTok.length = 4) then
      let d := natOfDigits dTok
      let y := natOfDigits yTok
      if 1 ≤ d ∧ d ≤ 31 then some (isoOfNorm y mo d) else none
    else none
  | _, _ => none

/-- `Modelled from V8`: `new Date(dateStr).toISOString().split('T')[0]`
(`none` = Invalid Date), restricted to the shapes the five date
patterns can produce and assuming a UTC runtime.  A numeric triple is
read year-first when its first number has four digits (strictly, per
ECMA-262, when it is a padded dash ISO date) and month-first otherwise
— V8 has no day-first reading, so `19/09/2025` is Invalid. -/
def jsDateISO (s : String) : Option String :=
  match parseNumericTriple s.data with
  | some t =>
    let a := t.1
    let s1 := t.2.1
    let b := t.2.2.1
    let s2 := t.2.2.2.1
    let c := t.2.2.2.2
    if a.length = 4 then
      if s1 = '-' ∧ s2 = '-' ∧ b.length = 2 ∧ c.length = 2 then
        let y := natOfDigits a
        let mo := natOfDigits b
        let d := natOfDigits c
        if 1 ≤ mo ∧ mo ≤ 12 ∧ 1 ≤ d ∧ d ≤ daysInMonth y mo then some (isoOfYMD y mo d)
        else none
      else
        let y := natOfDigits a
        let mo := natOfDigits b
        let d := natOfDigits c
        if 1 ≤ mo ∧ mo ≤ 12 ∧ 1 ≤ d ∧ d ≤ 31 then some (isoOfNorm y mo d) else none
    else
      let mo := natOfDigits a
      let d := natOfDigits b
      let y := natOfDigits c
      if 1 ≤ mo ∧ mo ≤ 12 ∧ 1 ≤ d ∧ d ≤ 31 then some (isoOfNorm y mo d) else none
  | none => monthNameDate s.data

/-- `s.padStart(2, '0')`. -/
def pad2S (s : String) : String :=
  if s.length = 0 then "00" else if s.length = 1 then "0" ++ s else s

/-- The body of the date-pattern loop applied to one `dateStr`
(`match[0]`): the exact-case month-name check, the inner month regex
with the `monthMap` lookup, then the `new Date` fallback; `none` makes
the loop continue with the next pattern. -/
def dateDecode (m : String) : Option String :=
  if monthNames.any (fun mn => containsSubS m mn) then
    match matchFirst innerMonthPat m.data with
    | some mc =>
      match mc.2.lookup 1, mc.2.lookup 2, mc.2.lookup 3 with
      | some monCs, some dayCs, some yCs =>
        let monNum := match monthCode (String.mk monCs) with
          | some x => x
          | none => "undefined"
        some (String.mk yCs ++ "-" ++ monNum ++ "-" ++ pad2S (String.mk dayCs))
      | _, _, _ => jsDateISO m
    | none => jsDateISO m
  else jsDateISO m

/-- `extractDate` from the receipt parser (`today` is the
processing-day ISO date the code computes from `new Date()`). -/
def extractDate (today : String) (text : String) : String :=
  match datePatterns.findSome? (fun p =>
    match matchFirst p text.data with
    | some mc => dateDecode (String.mk mc.1)
    | none => none) with
  | some d => d
  | none => today

/-! ## The legacy parser top level -/

/-- `ParsedTransaction` (legacy path output). -/
structure ParsedTransaction where
  date : String
  description : String
  amount : ℚ
  type : String
  deriving DecidableEq

/-- `parseReceiptText`: the four independent sub-extractions. -/
def parseReceiptText (today : String) (ocrText : String) : ParsedTransaction :=
  { date := extractDate today ocrText
    description := extractMerchant (linesOf ocrText)
    amount := extractAmount ocrText (linesOf ocrText)
    type := extractType ocrText }

/-! ## AI structuring extractor: response parsing and validation
(`structure_with_gemini` function source) -/

/-- `'\x7b'` (the opening curly brace). -/
def openBrace : Char := Char.ofNat 123

/-- `'\x7d'` (the closing curly brace). -/
def closeBrace : Char := Char.ofNat 125

/-- `/\x7b[\s\S]*\x7d$/` — the `extractJson` regex (greedy to a
closing brace that the `$` anchor requires to end the string). -/
def jsonPat : RE :=
  .seq (.cls (fun c => c = openBrace))
    (.seq (.star (.cls (fun _ => true)))
      (.seq (.cls (fun c => c = closeBrace)) .endS))

/-- The substring `extractJson` passes to `JSON.parse`, when its regex
matches. -/
def extractJsonCand (s : String) : Option String :=
  (matchFirst jsonPat s.data).map (fun mc => String.mk mc.1)

/-- `extractJson`, parameterized by the opaque `JSON.parse`
(`parse m = none` models a `JSON.parse` exception). -/
def extractJson {J : Type} (parse : String → Option J) (s : String) : Except String J :=
  match extractJsonCand s with
  | none => .error "No JSON found in response"
  | some m =>
    match parse m with
    | some v => .ok v
    | none => .error "Invalid JSON in response"

instance {ε α : Type} [DecidableEq ε] [DecidableEq α] : DecidableEq (Except ε α)
  | .error e, .error f =>
    if h : e = f then isTrue (h ▸ rfl) else isFalse (fun hh => h (Except.error.inj hh))
  | .error _, .ok _ => isFalse (fun hh => Except.noConfusion hh)
  | .ok _, .error _ => isFalse (fun hh => Except.noConfusion hh)
  | .ok a, .ok b =>
    if h : a = b then isTrue (h ▸ rfl) else isFalse (fun hh => h (Except.ok.inj hh))

/-- A scalar JSON value as `validate` inspects it (an absent object
field reads as `undefined`, distinct from `null`). -/
inductive JsonVal where
  | jnull
  | jundef
  | jbool (b : Bool)
  | jnum (q : ℚ)
  | jstr (s : String)
  deriving DecidableEq

/-- The object fields `validate` reads (scalar JSON fields; arrays and
nested objects fail every check an array would not also fail except
through exotic `toString` coercion in the date regex test, which is out
of model). -/
structure RawRecord where
  date : JsonVal
  type : JsonVal
  category : JsonVal
  sub_category : JsonVal
  amount : JsonVal
  note : JsonVal
  deriving DecidableEq

/-- The 13-value category enum of the AI path (`cats` in `validate`). -/
def aiCategories : List String :=
  ["shopping", "rent", "utility", "grocery", "dining", "transportation",
   "entertainment", "health", "income", "fees", "transfers", "education", "other"]

/-- `/^\d{4}-\d{2}-\d{2}$/.test(s)`. -/
def dateFmtTest (s : String) : Bool :=
  match s.data with
  | [y1, y2, y3, y4, '-', m1, m2, '-', d1, d2] =>
    y1.isDigit && y2.isDigit && y3.isDigit && y4.isDigit
      && m1.isDigit && m2.isDigit && d1.isDigit && d2.isDigit
  | _ => false

/-- `toLowerCase().slice(0, 60)`. -/
def lowerTrunc (s : String) : String := String.mk ((s.data.map Char.toLower).take 60)

/-- A record that passed `validate` (the dynamic checks pin each
field's type, and `sub_category` is normalized). -/
structure ValidRecord where
  date : Option String
  type : String
  category : String
  sub_category : Option String
  amount : ℚ
  note : Option String
  deriving DecidableEq

/-- `validate` from the AI extractor: field-by-field checks in source
order, first failure wins; on success `sub_category` is lower-cased and
truncated to 60 characters.  The `amount` check is the source's
`typeof rec.amount !== "number" || rec.amount < 0`. -/
def validate (rec : RawRecord) : Except String ValidRecord :=
  if !(match rec.type with | .jstr t => t = "in" || t = "out" | _ => false) then
    .error "Invalid type - must be 'in' or 'out'"
  else if !(match rec.category with | .jstr c => aiCategories.contains c | _ => false) then
    .error "Invalid category"
  else if !(match rec.amount with | .jnum q => decide (0 ≤ q) | _ => false) then
    .error "Invalid amount - must be positive number"
  else if !(match rec.date with
            | .jnull => true
            | .jstr s => dateFmtTest s
            | _ => false) then
    .error "Invalid date format - must be YYYY-MM-DD"
  else if !(match rec.sub_category with
            | .jnull => true
            | .jstr _ => true
            | _ => false) then
    .error "Invalid sub_category"
  else if !(match rec.note with
            | .jnull => true
            | .jstr _ => true
            | _ => false) then
    .error "Invalid note"
  else
    .ok { date := match rec.date with | .jstr s => some s | _ => none
          type := match rec.type with | .jstr t => t | _ => ""
          category := match rec.category with | .jstr c => c | _ => ""
          sub_category := match rec.sub_category with | .jstr s => some (lowerTrunc s) | _ => none
          amount := match rec.amount with | .jnum q => q | _ => 0
          note := match rec.note with | .jstr s => some s | _ => none }

/-! ## Extraction orchestrator (`process_image/index.ts`, structuring
section, lines 127–178) -/

/-- The canonical transaction shape the orchestrator builds
(`structuredData`). -/
structure CanonicalTx where
  date : String
  type : String
  category : String
  description : String
  amount : ℚ
  notes : Option String
  deriving DecidableEq

/-- Which extraction path produced the canonical record (spec §7
provenance; it marks the branch the handler took). -/
inductive ExPath where
  | ai
  | legacy
  deriving DecidableEq

/-- The structuring service's response as the orchestrator reads it:
`ok` is the HTTP `response.ok`; `bodyOk` the truthiness of
`structureResult.ok`; `record` is `structureResult.record` (`none` =
absent or null). -/
structure StructureHttpResponse where
  ok : Bool
  bodyOk : Bool
  record : Option ValidRecord
  deriving DecidableEq

/-- JavaScript `a || b` for a nullable string (`null`, `undefined` and
`""` are falsy). -/
def jsOrStr (o : Option String) (dflt : String) : String :=
  match o with
  | some s => if s = "" then dflt else s
  | none => dflt

/-- The structuring section of the `process_image` handler: on a
non-OK structuring response, the legacy parser plus categorizer; on an
OK response with `ok && record`, the AI-path field mapping; otherwise
the handler throws and its catch block answers 500
`"Failed to structure receipt data"` (modelled as the `Except` error). -/
def structureSection (today ocrText : String) (resp : StructureHttpResponse) :
    Except String (ExPath × CanonicalTx) :=
  if resp.ok = false then
    let legacyParsed := parseReceiptText today ocrText
    let legacyCategory := categorizeTransaction legacyParsed.description legacyParsed.type
    .ok (.legacy,
      { date := legacyParsed.date
        type := legacyParsed.type
        category := legacyCategory
        description := legacyParsed.description
        amount := legacyParsed.amount
        notes := none })
  else if resp.bodyOk then
    match resp.record with
    | some record =>
      .ok (.ai,
        { date := jsOrStr record.date today
          type := if record.type = "in" then "credit" else "debit"
          category := record.category
          description := jsOrStr record.sub_category "Transaction"
          amount := record.amount
          notes := record.note })
    | none => .error "Failed to structure receipt data"
  else .error "Failed to structure receipt data"

/-! ## Shared helper lemmas -/

theorem maxQne_mem (q : ℚ) (qs : List ℚ) : maxQne q qs ∈ q :: qs := by
  induction qs generalizing q with
  | nil => simp [maxQne]
  | cons x xs ih =>
    have step : maxQne q (x :: xs) = maxQne (max q x) xs := rfl
    rw [step]
    rcases List.mem_cons.1 (ih (max q x)) with h1 | h1
    · rw [h1]
      rcases max_choice q x with hm | hm <;> rw [hm]
      · exact List.mem_cons_self _ _
      · exact List.mem_cons.2 (Or.inr (List.mem_cons_self _ _))
    · exact List.mem_cons.2 (Or.inr (List.mem_cons.2 (Or.inr h1)))

theorem le_maxQne_self (a : ℚ) (l : List ℚ) : a ≤ maxQne a l := by
  induction l generalizing a with
  | nil => exact le_refl _
  | cons y ys ih => exact le_trans (le_max_left a y) (ih (max a y))

theorem le_maxQne (q : ℚ) (qs : List ℚ) : ∀ x ∈ q :: qs, x ≤ maxQne q qs := by
  induction qs generalizing q with
  | nil =>
    intro x hx
    simp at hx
    subst hx
    exact le_refl _
  | cons y ys ih =>
    intro x hx
    have step : maxQne q (y :: ys) = maxQne (max q y) ys := rfl
    rw [step]
    rcases List.mem_cons.1 hx with h1 | h1
    · subst h1
      exact le_trans (le_max_left x y) (le_maxQne_self (max x y) ys)
    · rcases List.mem_cons.1 h1 with h2 | h2
      · subst h2
        exact le_trans (le_max_right q x) (le_maxQne_self (max q x) ys)
      · exact ih (max q y) x (List.mem_cons.2 (Or.inr h2))

theorem shortestFirst_mem (c : String) (cs : List String) :
    shortestFirst c cs ∈ c :: cs := by
  induction cs generalizing c with
  | nil => simp [shortestFirst]
  | cons x xs ih =>
    have step : shortestFirst c (x :: xs)
        = shortestFirst (if x.length < c.length then x else c) xs := rfl
    rw [step]
    rcases List.mem_cons.1 (ih (if x.length < c.length then x else c)) with h1 | h1
    · rw [h1]
      by_cases hl : x.length < c.length
      · rw [if_pos hl]
        exact List.mem_cons.2 (Or.inr (List.mem_cons_self _ _))
      · rw [if_neg hl]
        exact List.mem_cons_self _ _
    · exact List.mem_cons.2 (Or.inr (List.mem_cons.2 (Or.inr h1)))

theorem shortestFirst_le_self (a : String) (l : List String) :
    (shortestFirst a l).length ≤ a.length := by
  induction l generalizing a with
  | nil => exact le_refl _
  | cons y ys ih =>
    have step : shortestFirst a (y :: ys)
        = shortestFirst (if y.length < a.length then y else a) ys := rfl
    rw [step]
    refine le_trans (ih _) ?_
    by_cases hl : y.length < a.length
    · rw [if_pos hl]; omega
    · rw [if_neg hl]

theorem shortestFirst_le (c : String) (cs : List String) :
    ∀ x ∈ c :: cs, (shortestFirst c cs).length ≤ x.length := by
  induction cs generalizing c with
  | nil =>
    intro x hx
    simp at hx
    subst hx
    exact le_refl _
  | cons y ys ih =>
    intro x hx
    have step : shortestFirst c (y :: ys)
        = shortestFirst (if y.length < c.length then y else c) ys := rfl
    rw [step]
    rcases List.mem_cons.1 hx with h1 | h1
    · subst h1
      refine le_trans (shortestFirst_le_self _ _) ?_
      by_cases hl : y.length < x.length
      · rw [if_pos hl]; omega
      · rw [if_neg hl]
    · rcases List.mem_cons.1 h1 with h2 | h2
      · subst h2
        refine le_trans (shortestFirst_le_self _ _) ?_
        by_cases hl : x.length < c.length
        · rw [if_pos hl]
        · rw [if_neg hl]; omega
      · exact ih (if y.length < c.length then y else c) x (List.mem_cons.2 (Or.inr h2))

theorem findSome_exists {α β : Type} {f : α → Option β} {l : List α} {b : β}
    (h : l.findSome? f = some b) : ∃ a, a ∈ l ∧ f a = some b := by
  rw [List.findSome?_eq_some_iff] at h
  obtain ⟨l1, a, l2, rfl, hfa, _⟩ := h
  exact ⟨a, by simp, hfa⟩

theorem firstTotalAmount_pos {lines : List String} {a : ℚ}
    (h : firstTotalAmount lines = some a) : 0 < a := by
  obtain ⟨line, -, hline⟩ := findSome_exists h
  dsimp only at hline
  split at hline
  · split at hline
    · rename_i hpos
      cases hline
      exact hpos
    · cases hline
  · cases hline

/-! ## Claim C8 -/

/-- Claim C8: the spec (and the code's own error message,
`"Invalid amount - must be positive number"`) require the amount to be
a positive number, with `0` rejected, but the check in `validate` is
`rec.amount < 0`: a record with `amount = 0` is accepted and returned
unchanged rather than raising an `ExtractionError`.  This theorem
evaluates `validate` at the failing input. -/
theorem C8_amount_zero_accepted :
    validate ⟨.jnull, .jstr "out", .jstr "other", .jnull, .jnum 0, .jnull⟩
      = .ok ⟨none, "out", "other", none, 0, none⟩ := by decide

/-! ## Claim C10 -/

/-- Claim C10: in the orchestrator's structuring section only a non-OK
HTTP status triggers the legacy fallback; an OK (200) response whose
body has `ok` false or lacks a record does not fall back but yields the
500 `"Failed to structure receipt data"` error. -/
theorem C10_fallback_only_non_ok (today ocr : String) (resp : StructureHttpResponse) :
    (resp.ok = true → (resp.bodyOk = false ∨ resp.record = none) →
      structureSection today ocr resp = .error "Failed to structure receipt data")
    ∧ (∀ p c, structureSection today ocr resp = .ok (p, c) → p = .legacy →
        resp.ok = false) := by
  obtain ⟨ok, bok, rc⟩ := resp
  constructor
  · intro hok hbad
    subst hok
    cases bok <;> cases rc <;> simp only [structureSection] <;> simp_all
  · intro p c h hp
    subst hp
    cases ok
    · rfl
    · exfalso
      cases bok <;> cases rc <;> simp only [structureSection] at h <;> simp_all

/-- Witness for C10 at a concrete 200-with-invalid-body response. -/
theorem C10_witness :
    structureSection "2025-01-01" "x" ⟨true, false, none⟩
      = .error "Failed to structure receipt data" :=
  (C10_fallback_only_non_ok "2025-01-01" "x" ⟨true, false, none⟩).1 rfl (Or.inl rfl)

theorem bool_not_not {b : Bool} (h : ¬ (!b) = true) : b = true := by
  cases b <;> simp at h ⊢

theorem exists_ok {ε α : Type} (e : Except ε α) (h : e.isOk = true) : ∃ r, e = .ok r := by
  cases e
  · simp [Except.isOk, Except.toBool] at h
  · exact ⟨_, rfl⟩

/-! ## Claim C2 -/

/-- Claim C2: `validate` accepts a parsed record exactly when `type` is
`"in"` or `"out"`, `category` is one of the 13 enum values, `amount` is
a number `≥ 0`, `date` is null or matches `YYYY-MM-DD`, `sub_category`
is null or a string, and `note` is null or a string; a string
`sub_category` comes back lower-cased and truncated to at most 60
characters; and every rejection carries one of the six field-naming
error messages. -/
theorem C2_validate_exact (rec : RawRecord) :
    ((∃ r, validate rec = Except.ok r) ↔
      ((rec.type = .jstr "in" ∨ rec.type = .jstr "out")
        ∧ (∃ c, rec.category = .jstr c ∧ c ∈ aiCategories)
        ∧ (∃ q, rec.amount = .jnum q ∧ 0 ≤ q)
        ∧ (rec.date = .jnull ∨ ∃ s, rec.date = .jstr s ∧ dateFmtTest s = true)
        ∧ (rec.sub_category = .jnull ∨ ∃ s, rec.sub_category = .jstr s)
        ∧ (rec.note = .jnull ∨ ∃ s, rec.note = .jstr s)))
    ∧ (∀ r s, validate rec = Except.ok r → rec.sub_category = .jstr s →
        r.sub_category = some (lowerTrunc s) ∧ (lowerTrunc s).length ≤ 60)
    ∧ (∀ e, validate rec = Except.error e →
        e ∈ ["Invalid type - must be 'in' or 'out'", "Invalid category",
          "Invalid amount - must be positive number",
          "Invalid date format - must be YYYY-MM-DD",
          "Invalid sub_category", "Invalid note"]) := by
  refine ⟨⟨?_, ?_⟩, ?_, ?_⟩
  · rintro ⟨r, hr⟩
    unfold validate at hr
    split_ifs at hr with h1 h2 h3 h4 h5 h6
    have hb1 := bool_not_not h1
    have hb2 := bool_not_not h2
    have hb3 := bool_not_not h3
    have hb4 := bool_not_not h4
    have hb5 := bool_not_not h5
    have hb6 := bool_not_not h6
    refine ⟨?_, ?_, ?_, ?_, ?_, ?_⟩
    · cases ht : rec.type <;> rw [ht] at hb1 <;> simp at hb1
      rcases hb1 with h | h <;> [left; right] <;> rw [h]
    · cases hc : rec.category <;> rw [hc] at hb2 <;> simp at hb2
      exact ⟨_, rfl, hb2⟩
    · cases ha : rec.amount <;> rw [ha] at hb3 <;> simp at hb3
      exact ⟨_, rfl, hb3⟩
    · cases hd : rec.date <;> rw [hd] at hb4 <;> simp at hb4
      · exact Or.inl rfl
      · exact Or.inr ⟨_, rfl, hb4⟩
    · cases hs : rec.sub_category <;> rw [hs] at hb5 <;> simp at hb5
      · exact Or.inl rfl
      · exact Or.inr ⟨_, rfl⟩
    · cases hn : rec.note <;> rw [hn] at hb6 <;> simp at hb6
      · exact Or.inl rfl
      · exact Or.inr ⟨_, rfl⟩
  · rintro ⟨htype, ⟨c', hc, hcmem⟩, ⟨q, hq, hq0⟩, hdate, hsub, hnote⟩
    have hcontains : aiCategories.contains c' = true := by
      simpa [List.contains] using hcmem
    rcases htype with ht | ht <;>
      rcases hdate with hd | ⟨s1, hd, hs1⟩ <;>
      rcases hsub with hs | ⟨s2, hs⟩ <;>
      rcases hnote with hn | ⟨s3, hn⟩ <;>
      refine exists_ok _ ?_ <;>
      simp [validate, Except.isOk, Except.toBool, *]
  · intro r s hr hsc
    constructor
    · unfold validate at hr
      split_ifs at hr
      have h' := Except.ok.inj hr
      rw [← h', hsc]
    · have hl : (lowerTrunc s).length = ((s.data.map Char.toLower).take 60).length := rfl
      rw [hl, List.length_take]
      exact Nat.min_le_left _ _
  · intro e hr
    unfold validate at hr
    split_ifs at hr
    all_goals
      injection hr with h
      subst h
      decide

/-- Witness for C2: a fully valid concrete record is accepted. -/
theorem C2_witness :
    ∃ r, validate ⟨.jstr "2025-01-02", .jstr "in", .jstr "income",
        .jstr "Tim Hortons", .jnum 3, .jnull⟩ = Except.ok r :=
  (C2_validate_exact _).1.2
    ⟨Or.inl rfl, ⟨"income", rfl, by decide⟩, ⟨3, rfl, by decide⟩,
     Or.inr ⟨_, rfl, by decide⟩, Or.inr ⟨_, rfl⟩, Or.inl rfl⟩

/-! ## Claim C1 -/

theorem validate_ok_date {rec : RawRecord} {r : ValidRecord}
    (h : validate rec = .ok r) :
    r.date = none ∨ ∃ s, r.date = some s ∧ dateFmtTest s = true := by
  unfold validate at h
  split_ifs at h with h1 h2 h3 h4 h5 h6
  have h' := Except.ok.inj h
  have hb4 := bool_not_not h4
  cases hd : rec.date <;> rw [hd] at hb4 <;> simp at hb4
  · left
    rw [← h', hd]
  · right
    exact ⟨_, by rw [← h', hd], hb4⟩

theorem dateFmtTest_ne_empty {s : String} (h : dateFmtTest s = true) : s ≠ "" := by
  intro he
  subst he
  exact absurd h (by decide)

/-- Claim C1 (counterexample): a validated record whose `sub_category`
is the empty string (present, non-null) is mapped with
`description = "Transaction"`, not the present `sub_category` value,
because the orchestrator uses JavaScript `||` rather than `??`. -/
theorem C1_counterexample :
    validate ⟨.jnull, .jstr "in", .jstr "other", .jstr "", .jnum 5, .jnull⟩
        = .ok ⟨none, "in", "other", some "", 5, none⟩
    ∧ structureSection "2025-01-02" "x"
        ⟨true, true, some ⟨none, "in", "other", some "", 5, none⟩⟩
        = .ok (.ai, ⟨"2025-01-02", "credit", "other", "Transaction", 5, none⟩)
    ∧ ("Transaction" : String) ≠ "" := by
  exact ⟨by decide, by decide, by decide⟩

/-- Claim C1 (amended): one extraction path in full.  On an OK
structuring response holding validated record `r`, every field comes
from `r`: `date` is `r.date` when non-null else today (a validated
date is never empty, so `||` and `??` agree there); `type` maps
`in → credit` and otherwise `debit`; `description` is `r.sub_category`
when it is a non-null **non-empty** string, else `"Transaction"`;
`amount` and `notes` are copied.  On a non-OK response every field
comes from the legacy parser plus the keyword categorizer, with
`notes` null. -/
theorem C1_one_path_in_full :
    (∀ (today ocr : String) (rec : RawRecord) (r : ValidRecord),
      validate rec = .ok r →
      structureSection today ocr ⟨true, true, some r⟩
        = .ok (.ai,
          { date := match r.date with | some d => d | none => today
            type := if r.type = "in" then "credit" else "debit"
            category := r.category
            description := match r.sub_category with
              | some s => if s = "" then "Transaction" else s
              | none => "Transaction"
            amount := r.amount
            notes := r.note }))
    ∧ (∀ (today ocr : String) (resp : StructureHttpResponse), resp.ok = false →
      structureSection today ocr resp
        = .ok (.legacy,
          { date := (parseReceiptText today ocr).date
            type := (parseReceiptText today ocr).type
            category := categorizeTransaction (parseReceiptText today ocr).description
              (parseReceiptText today ocr).type
            description := (parseReceiptText today ocr).description
            amount := (parseReceiptText today ocr).amount
            notes := none })) := by
  constructor
  · intro today ocr rec r hr
    rcases validate_ok_date hr with hd | ⟨s, hd, hfmt⟩
    · simp [structureSection, jsOrStr, hd]
    · have hne := dateFmtTest_ne_empty hfmt
      simp [structureSection, jsOrStr, hd, hne]
  · intro today ocr resp hok
    simp [structureSection, hok]

/-- Witness for C1 at a concrete validated record. -/
theorem C1_witness :
    structureSection "2025-01-02" "x"
        ⟨true, true, some ⟨some "2025-09-19", "out", "dining", some "tim hortons",
          mkRat 305 100, none⟩⟩
      = .ok (.ai, ⟨"2025-09-19", "debit", "dining", "tim hortons", mkRat 305 100, none⟩) :=
  ((C1_one_path_in_full).1 "2025-01-02" "x"
    ⟨.jstr "2025-09-19", .jstr "out", .jstr "dining", .jstr "tim hortons",
      .jnum (mkRat 305 100), .jnull⟩
    ⟨some "2025-09-19", "out", "dining", some "tim hortons", mkRat 305 100, none⟩
    (by decide)).trans (by decide)

/-! ## Claim C5 -/

/-- Claim C5: `categorizeTransaction` is pure and total; for credits an
Income-keyword hit returns `"Income"` immediately; otherwise the first
category in declared table order with a substring-matching keyword wins
(Income skipped unless credit); with no match anywhere the result is
`"Uncategorized"`; and the three concrete examples hold. -/
theorem C5_categorize_table_order :
    (∀ d : String, keywordHit (lowerStr d) incomeKeywords = true →
      categorizeTransaction d "credit" = "Income")
    ∧ (∀ (d ty : String) (pre post : List (String × List String)) (cat : String)
        (kws : List String),
        CATEGORY_KEYWORDS = pre ++ (cat, kws) :: post →
        ¬(ty = "credit" ∧ keywordHit (lowerStr d) incomeKeywords = true) →
        (∀ ck ∈ pre, (ck.1 = "Income" → ty = "credit") →
          keywordHit (lowerStr d) ck.2 = false) →
        (cat = "Income" → ty = "credit") →
        keywordHit (lowerStr d) kws = true →
        categorizeTransaction d ty = cat)
    ∧ (∀ d ty : String,
        (ty = "credit" → keywordHit (lowerStr d) incomeKeywords = false) →
        (∀ ck ∈ CATEGORY_KEYWORDS, (ck.1 = "Income" → ty = "credit") →
          keywordHit (lowerStr d) ck.2 = false) →
        categorizeTransaction d ty = "Uncategorized")
    ∧ categorizeTransaction "Payroll Deposit" "credit" = "Income"
    ∧ categorizeTransaction "Starbucks Coffee" "debit" = "Dining"
    ∧ categorizeTransaction "Unknown Store XYZ" "debit" = "Uncategorized" := by
  refine ⟨?_, ?_, ?_, by decide, by decide, by decide⟩
  · intro d h
    simp [categorizeTransaction, h]
  · intro d ty pre post cat kws htable hnotinc hpre happ hhit
    have hcond : (decide (ty = "credit") && keywordHit (lowerStr d) incomeKeywords) = false := by
      by_cases hty : ty = "credit"
      · cases hkk : keywordHit (lowerStr d) incomeKeywords
        · simp [hty, hkk]
        · exact absurd ⟨hty, hkk⟩ hnotinc
      · simp [hty]
    unfold categorizeTransaction
    rw [if_neg (by simp_all), htable, List.findSome?_append]
    have hprenone : pre.findSome? (fun ck =>
        if ck.1 = "Income" && ty ≠ "credit" then none
        else if keywordHit (lowerStr d) ck.2 then some ck.1 else none) = none := by
      rw [List.findSome?_eq_none_iff]
      intro ck hck
      by_cases h1 : ck.1 = "Income"
      · by_cases h2 : ty = "credit"
        · have hit := hpre ck hck (fun _ => h2)
          simp [h1, h2, hit]
        · simp [h1, h2]
      · have hit := hpre ck hck (fun hI => absurd hI h1)
        simp [h1, hit]
    rw [hprenone]
    have hhead : (((cat, kws) :: post).findSome? (fun ck =>
        if ck.1 = "Income" && ty ≠ "credit" then none
        else if keywordHit (lowerStr d) ck.2 then some ck.1 else none)) = some cat := by
      rw [List.findSome?_cons]
      by_cases hI : cat = "Income"
      · simp [hI, happ hI, hhit]
      · simp [hI, hhit]
    rw [Option.none_or, hhead]
  · intro d ty hinc hall
    have hcond : (decide (ty = "credit") && keywordHit (lowerStr d) incomeKeywords) = false := by
      by_cases hty : ty = "credit"
      · simp [hty, hinc hty]
      · simp [hty]
    unfold categorizeTransaction
    rw [if_neg (by simp_all)]
    have hnone : CATEGORY_KEYWORDS.findSome? (fun ck =>
        if ck.1 = "Income" && ty ≠ "credit" then none
        else if keywordHit (lowerStr d) ck.2 then some ck.1 else none) = none := by
      rw [List.findSome?_eq_none_iff]
      intro ck hck
      by_cases h1 : ck.1 = "Income"
      · by_cases h2 : ty = "credit"
        · have hit := hall ck hck (fun _ => h2)
          simp [h1, h2, hit]
        · simp [h1, h2]
      · have hit := hall ck hck (fun hI => absurd hI h1)
        simp [h1, hit]
    rw [hnone]

/-- Witness for C5: the table-order conjunct at a concrete
decomposition (a description hitting Rent but nothing earlier). -/
theorem C5_witness : categorizeTransaction "monthly rent due" "debit" = "Rent" :=
  C5_categorize_table_order.2.1 "monthly rent due" "debit"
    [("Dining", ["starbucks", "mcdonald", "kfc", "restaurant", "cafe", "ubereats", "doordash",
       "pizza", "burger", "subway", "tim hortons", "wendy", "taco bell", "domino",
       "food", "bar", "pub", "bistro", "diner", "grill"]),
     ("Groceries", ["walmart", "costco", "no frills", "loblaws", "aldi", "kroger", "metro",
       "supermarket", "grocery", "food basics", "sobeys", "safeway", "whole foods",
       "produce", "market"]),
     ("Transport", ["uber", "lyft", "gas", "shell", "esso", "petro", "bp", "metro pass",
       "fuel", "taxi", "bus", "transit", "parking", "toll", "car wash",
       "vehicle", "automotive"]),
     ("Utilities", ["hydro", "electric", "water", "gas bill", "internet", "rogers", "bell",
       "verizon", "phone", "cable", "utility", "power", "heating", "cooling"])]
    [("Income", ["salary", "payroll", "deposit", "credited", "refund", "transfer in",
       "bonus", "commission", "dividend", "interest", "payment received"]),
     ("Shopping", ["amazon", "target", "best buy", "clothing", "shoes", "electronics",
       "department store", "mall", "retail", "purchase"]),
     ("Healthcare", ["pharmacy", "doctor", "hospital", "clinic", "medical", "dental",
       "prescription", "health", "insurance"]),
     ("Entertainment", ["movie", "theater", "netflix", "spotify", "game", "concert",
       "entertainment", "streaming", "subscription"])]
    "Rent"
    ["rent", "landlord", "property mgmt", "lease", "housing", "apartment",
     "condo", "mortgage"]
    (by decide) (by decide) (by decide) (by decide) (by decide)

/-! ## Claim C4 -/

theorem parseCurrencyTok_none {l : List Char} (h : ∀ c ∈ l, c.isDigit = false) :
    parseCurrencyTok l = none := by
  have h1 : (takeDigitsUpTo 3 l).1 = [] := by
    cases l with
    | nil => rfl
    | cons c t => simp [takeDigitsUpTo, h c (List.mem_cons_self _ _)]
  unfold parseCurrencyTok
  rw [if_pos h1]

theorem scanCurrencyF_no_digit (sym : Char → Bool) (f : Nat) (l : List Char)
    (h : ∀ c ∈ l, c.isDigit = false) : scanCurrencyF sym f l = [] := by
  induction f generalizing l with
  | zero => rfl
  | succ f ih =>
    cases l with
    | nil => rfl
    | cons c rest =>
      have hrest : ∀ c' ∈ rest, c'.isDigit = false :=
        fun c' hc' => h c' (List.mem_cons.2 (Or.inr hc'))
      by_cases hs : sym c
      · simp only [scanCurrencyF, hs, if_true, parseCurrencyTok_none hrest]
        exact ih rest hrest
      · simp only [scanCurrencyF, Bool.false_eq_true, hs, if_false]
        exact ih rest hrest

theorem allNumToksF_no_digit (f : Nat) (l : List Char)
    (h : ∀ c ∈ l, c.isDigit = false) : allNumToksF f l = [] := by
  induction f generalizing l with
  | zero => rfl
  | succ f ih =>
    cases l with
    | nil => rfl
    | cons c rest =>
      have hc := h c (List.mem_cons_self _ _)
      simp only [allNumToksF, hc, Bool.false_eq_true, if_false]
      exact ih rest (fun c' hc' => h c' (List.mem_cons.2 (Or.inr hc')))

theorem firstNumTok_no_digit {l : List Char} (h : ∀ c ∈ l, c.isDigit = false) :
    firstNumTok l = none := by
  induction l with
  | nil => rfl
  | cons c rest ih =>
    have hc := h c (List.mem_cons_self _ _)
    simp only [firstNumTok, hc, Bool.false_eq_true, if_false]
    exact ih (fun c' hc' => h c' (List.mem_cons.2 (Or.inr hc')))

theorem mem_collapseWSF {c : Char} (f : Nat) (l : List Char)
    (h : c ∈ collapseWSF f l) : c ∈ l ∨ c = ' ' := by
  induction f generalizing l with
  | zero => cases h
  | succ f ih =>
    cases l with
    | nil => cases h
    | cons x rest =>
      by_cases hx : isWS x
      · rw [show collapseWSF (f + 1) (x :: rest) = ' ' :: collapseWSF f (rest.dropWhile isWS)
            from by simp [collapseWSF, hx]] at h
        rcases List.mem_cons.1 h with h1 | h1
        · exact Or.inr h1
        · rcases ih _ h1 with h2 | h2
          · exact Or.inl (List.mem_cons.2 (Or.inr ((List.dropWhile_suffix isWS).subset h2)))
          · exact Or.inr h2
      · rw [show collapseWSF (f + 1) (x :: rest) = x :: collapseWSF f rest
            from by simp [collapseWSF, hx]] at h
        rcases List.mem_cons.1 h with h1 | h1
        · exact Or.inl (List.mem_cons.2 (Or.inl h1))
        · rcases ih _ h1 with h2 | h2
          · exact Or.inl (List.mem_cons.2 (Or.inr h2))
          · exact Or.inr h2

theorem mem_splitNl {c : Char} {p l : List Char}
    (hp : p ∈ splitNl l) (hc : c ∈ p) : c ∈ l := by
  induction l generalizing p with
  | nil =>
    simp [splitNl] at hp
    subst hp
    cases hc
  | cons x rest ih =>
    by_cases hx : x = '\n'
    · rw [show splitNl (x :: rest) = [] :: splitNl rest from by simp [splitNl, hx]] at hp
      rcases List.mem_cons.1 hp with h1 | h1
      · subst h1; cases hc
      · exact List.mem_cons.2 (Or.inr (ih h1 hc))
    · rw [show splitNl (x :: rest) = (match splitNl rest with
          | [] => [[x]]
          | l :: ls => (x :: l) :: ls) from by simp [splitNl, hx]] at hp
      cases hsp : splitNl rest with
      | nil =>
        rw [hsp] at hp
        simp at hp
        subst hp
        simp at hc
        subst hc
        exact List.mem_cons_self _ _
      | cons l' ls =>
        rw [hsp] at hp
        rcases List.mem_cons.1 hp with h1 | h1
        · subst h1
          rcases List.mem_cons.1 hc with h2 | h2
          · subst h2; exact List.mem_cons_self _ _
          · exact List.mem_cons.2 (Or.inr (ih (by rw [hsp]; exact List.mem_cons_self _ _) h2))
        · exact List.mem_cons.2 (Or.inr (ih (by rw [hsp]; exact List.mem_cons.2 (Or.inr h1)) hc))

theorem mem_trimChars {c : Char} {l : List Char} (h : c ∈ trimChars l) : c ∈ l := by
  unfold trimChars at h
  rw [List.mem_reverse] at h
  have h1 := (List.dropWhile_suffix isWS).subset h
  rw [List.mem_reverse] at h1
  exact (List.dropWhile_suffix isWS).subset h1

theorem linesOf_chars {c : Char} {line text : String}
    (hl : line ∈ linesOf text) (hc : c ∈ line.data) : c ∈ text.data := by
  unfold linesOf at hl
  have hl1 := List.mem_filter.1 hl
  obtain ⟨p, hp, hline⟩ := List.mem_map.1 hl1.1
  subst hline
  exact mem_splitNl hp (mem_trimChars hc)

theorem extractNumberFromLine_no_digit {line : String}
    (h : ∀ c ∈ line.data, c.isDigit = false) : extractNumberFromLine line = 0 := by
  unfold extractNumberFromLine
  have hno : ∀ c ∈ collapseWS (stripCommas (stripCur line.data)), c.isDigit = false := by
    intro c hc
    rcases mem_collapseWSF _ _ hc with h1 | h1
    · unfold stripCommas stripCur at h1
      exact h c (List.mem_filter.1 (List.mem_filter.1 h1).1).1
    · rw [h1]; rfl
  dsimp only
  rw [firstNumTok_no_digit hno]

theorem firstTotalAmount_none_of_no_digit {text : String}
    (h : ∀ c ∈ text.data, c.isDigit = false) :
    firstTotalAmount (linesOf text) = none := by
  unfold firstTotalAmount
  rw [List.findSome?_eq_none_iff]
  intro line hline
  have hld : ∀ c ∈ line.data, c.isDigit = false :=
    fun c hc => h c (linesOf_chars hline hc)
  dsimp only
  rw [extractNumberFromLine_no_digit hld]
  simp

/-- Claim C4 (counterexample): a text whose only currency-tagged token
is `$0.00` — the claim says the largest currency-tagged value (0) is
returned, but the `amount > 0` push filter empties the currency stage
and the bare-number fallback returns 42. -/
theorem C4_counterexample :
    currencyTokensAll "$0.00\nroom 42" = [0]
    ∧ extractAmount "$0.00\nroom 42" (linesOf "$0.00\nroom 42") = 42
    ∧ (42 : ℚ) ≠ 0 :=
  ⟨by decide, by decide, by decide⟩

/-- Claim C4 (amended): `extractAmount`'s fallback chain, with the
positivity conditions the code imposes: the largest **positive**
currency-tagged value if any; else the value of the first
total/amount/balance line whose first numeric token is **positive**;
else the largest bare number in `(0, 100000)`; and `0` when the text
has no digits at all. -/
theorem C4_amount_chain (text : String) :
    (∀ q qs, currencyAmounts text = q :: qs →
      extractAmount text (linesOf text) = maxQne q qs
        ∧ maxQne q qs ∈ q :: qs ∧ ∀ x ∈ q :: qs, x ≤ maxQne q qs)
    ∧ (currencyAmounts text = [] → ∀ a, firstTotalAmount (linesOf text) = some a →
        extractAmount text (linesOf text) = a ∧ 0 < a)
    ∧ (∀ m ms, currencyAmounts text = [] → firstTotalAmount (linesOf text) = none →
        (extractAllNumbers text).filter (fun n => decide (0 < n) && decide (n < 100000))
          = m :: ms →
        extractAmount text (linesOf text) = maxQne m ms
          ∧ maxQne m ms ∈ m :: ms ∧ ∀ x ∈ m :: ms, x ≤ maxQne m ms)
    ∧ ((∀ c ∈ text.data, c.isDigit = false) → extractAmount text (linesOf text) = 0) := by
  refine ⟨?_, ?_, ?_, ?_⟩
  · intro q qs hq
    refine ⟨?_, maxQne_mem q qs, le_maxQne q qs⟩
    unfold extractAmount
    rw [hq]
  · intro hq a ha
    refine ⟨?_, firstTotalAmount_pos ha⟩
    unfold extractAmount
    rw [hq, ha]
  · intro m ms hq ht hm
    refine ⟨?_, maxQne_mem m ms, le_maxQne m ms⟩
    unfold extractAmount
    rw [hq, ht, hm]
  · intro h
    have hcur : currencyAmounts text = [] := by
      unfold currencyAmounts currencyTokensAll scanCurrency
      rw [scanCurrencyF_no_digit _ _ _ h, scanCurrencyF_no_digit _ _ _ h]
      rfl
    have htot := firstTotalAmount_none_of_no_digit h
    have hall : extractAllNumbers text = [] := by
      have hsub : ∀ c ∈ stripCommas (stripCur text.data), c.isDigit = false := by
        intro c hc
        unfold stripCommas stripCur at hc
        exact h c (List.mem_filter.1 (List.mem_filter.1 hc).1).1
      unfold extractAllNumbers allNumToks
      rw [allNumToksF_no_digit (stripCommas (stripCur text.data)).length
        (stripCommas (stripCur text.data)) hsub]
      rfl
    unfold extractAmount
    rw [hcur, htot, hall]
    rfl

/-- Witness for C4: the chain at the spec's own example text
(`$12.00` subtotal, `$45.67` total → the larger value). -/
theorem C4_witness :
    extractAmount "$12.00 subtotal\n$45.67 total"
      (linesOf "$12.00 subtotal\n$45.67 total") = mkRat 4567 100 := by
  have h := ((C4_amount_chain "$12.00 subtotal\n$45.67 total").1
    12 [mkRat 4567 100] (by decide)).1
  exact h.trans (by decide)

/-! ## Claim C6 -/

theorem takeCI_ci : ∀ {n l : List Char} {p : List Char × List Char},
    takeCI n l = some p →
    p.1.map Char.toLower = n.map Char.toLower ∧ l = p.1 ++ p.2
  | [], l, p => by
    intro h
    simp [takeCI] at h
    subst h
    exact ⟨rfl, rfl⟩
  | n :: ns, [], p => by
    intro h
    simp [takeCI] at h
  | n :: ns, c :: cs, p => by
    intro h
    unfold takeCI at h
    split_ifs at h with hc
    rw [Option.map_eq_some'] at h
    obtain ⟨q, hq, hp⟩ := h
    obtain ⟨ih1, ih2⟩ := takeCI_ci hq
    subst hp
    refine ⟨?_, ?_⟩
    · simp only [List.map_cons, hc, ih1]
    · simp only [List.cons_append, ih2]

theorem nameWsAt_shape {l m : List Char} (h : nameWsAt l = some m) :
    ∃ n, n ∈ MERCHANTS ∧ m.map Char.toLower = n.data.map Char.toLower
      ∧ ∃ c rest, isWS c = true ∧ l = m ++ c :: rest := by
  obtain ⟨n, hn, hfn⟩ := findSome_exists h
  replace hfn : (match takeCI n.data l with
    | some p =>
      match p.2.head? with
      | some c => if isWS c then some p.1 else none
      | none => none
    | none => none) = some m := hfn
  cases hp : takeCI n.data l with
  | none => rw [hp] at hfn; cases hfn
  | some p =>
    rw [hp] at hfn
    cases hhd : p.2 with
    | nil =>
      simp only [hhd] at hfn
      cases hfn
    | cons c rest =>
      simp only [hhd, List.head?_cons] at hfn
      split_ifs at hfn with hws
      cases hfn
      obtain ⟨hci, hsplit⟩ := takeCI_ci hp
      exact ⟨n, hn, hci, c, rest, hws, by rw [hsplit, hhd]⟩

theorem p2Scan_shape : ∀ {l m : List Char}, p2Scan l = some m →
    ∃ n, n ∈ MERCHANTS ∧ m.map Char.toLower = n.data.map Char.toLower
      ∧ ∃ c, isWS c = true ∧ (m ++ [c]) <:+: l
  | [], m => by intro h; cases h
  | x :: rest, m => by
    intro h
    unfold p2Scan at h
    cases hn : nameWsAt (x :: rest) with
    | some m' =>
      rw [hn] at h
      cases h
      obtain ⟨n, hmem, hci, c, r, hws, hsplit⟩ := nameWsAt_shape hn
      refine ⟨n, hmem, hci, c, hws, ?_⟩
      exact ⟨[], r, by rw [hsplit]; simp⟩
    | none =>
      rw [hn] at h
      obtain ⟨n, hmem, hci, c, hws, s, t, hst⟩ := p2Scan_shape h
      exact ⟨n, hmem, hci, c, hws, x :: s, t, by rw [← hst]; rfl⟩

/-- Claim C6 (counterexample): `"Amazon.com"` starts with the
well-known merchant name `"Amazon"` but is not followed by whitespace,
so neither merchant regex matches — the claim's prefix-match rule says
the line should hit and return `"Amazon"`, yet the code reaches the
candidate filter and returns the whole line. -/
theorem C6_counterexample :
    extractMerchant ["Amazon.com"] = "Amazon.com"
    ∧ startsWithL "Amazon".data "Amazon.com".data = true
    ∧ "Amazon" ∈ MERCHANTS
    ∧ ("Amazon.com" : String) ≠ "Amazon" :=
  ⟨by decide, by decide, by decide, by decide⟩

/-- Claim C6 (amended): the well-known-merchant test matches a line
either as a whole-line case-insensitive match (returning the line) or
as a merchant name followed by whitespace **anywhere in the line**
(returning the matched original-case name text), first hit over the
lines winning; otherwise, among the candidate lines (the code's length,
letter and noise filters), a candidate of minimal length is returned;
with no candidates the result is `"Unknown Merchant"`. -/
theorem C6_merchant_resolution (lines : List String) :
    (∀ m, lines.findSome? merchantHit = some m → extractMerchant lines = m)
    ∧ (∀ line : String, (∃ n, n ∈ MERCHANTS ∧ lowerStr line = lowerStr n) →
        merchantHit line = some line)
    ∧ (∀ line m, merchantHit line = some m →
        m = line ∨ ∃ n, n ∈ MERCHANTS
          ∧ m.data.map Char.toLower = n.data.map Char.toLower
          ∧ ∃ c, isWS c = true ∧ (m.data ++ [c]) <:+: line.data)
    ∧ (lines.findSome? merchantHit = none → ∀ c cs, lines.filter isCandidate = c :: cs →
        extractMerchant lines ∈ c :: cs
          ∧ ∀ x ∈ c :: cs, (extractMerchant lines).length ≤ x.length)
    ∧ (lines.findSome? merchantHit = none → lines.filter isCandidate = [] →
        extractMerchant lines = "Unknown Merchant") := by
  refine ⟨?_, ?_, ?_, ?_, ?_⟩
  · intro m h
    unfold extractMerchant
    rw [h]
  · rintro line ⟨n, hn, he⟩
    unfold merchantHit
    rw [if_pos]
    rw [List.any_eq_true]
    exact ⟨n, hn, by simp [he]⟩
  · intro line m h
    unfold merchantHit at h
    split_ifs at h with hwhole
    · exact Or.inl (Option.some.inj h).symm
    · rw [Option.map_eq_some'] at h
      obtain ⟨ml, hml, hm⟩ := h
      obtain ⟨n, hmem, hci, c, hws, hinf⟩ := p2Scan_shape hml
      subst hm
      exact Or.inr ⟨n, hmem, hci, c, hws, hinf⟩
  · intro h c cs hc
    unfold extractMerchant
    rw [h, hc]
    exact ⟨shortestFirst_mem c cs, shortestFirst_le c cs⟩
  · intro h hc
    unfold extractMerchant
    rw [h, hc]

/-- Witness for C6: a merchant name mid-line followed by whitespace
wins over the candidate stage. -/
theorem C6_witness : extractMerchant ["Order from PayPal today"] = "PayPal" :=
  (C6_merchant_resolution ["Order from PayPal today"]).1 "PayPal" (by decide)

/-! ## Claim C9 -/

theorem extractAmount_nonneg (text : String) (lines : List String) :
    0 ≤ extractAmount text lines := by
  unfold extractAmount
  cases hq : currencyAmounts text with
  | cons q qs =>
    have hmem : q ∈ currencyAmounts text := by
      rw [hq]; exact List.mem_cons_self _ _
    have hq0 : 0 < q := by
      unfold currencyAmounts at hmem
      have := (List.mem_filter.1 hmem).2
      simpa using this
    exact le_of_lt (lt_of_lt_of_le hq0 (le_maxQne_self q qs))
  | nil =>
    cases ht : firstTotalAmount lines with
    | some a => exact le_of_lt (firstTotalAmount_pos ht)
    | none =>
      cases hr : (extractAllNumbers text).filter
          (fun n => decide (0 < n) && decide (n < 100000)) with
      | cons m ms =>
        have hmem : m ∈ (extractAllNumbers text).filter
            (fun n => decide (0 < n) && decide (n < 100000)) := by
          rw [hr]; exact List.mem_cons_self _ _
        have hm0 : 0 < m := by
          have := (List.mem_filter.1 hmem).2
          simp at this
          exact this.1
        exact le_of_lt (lt_of_lt_of_le hm0 (le_maxQne_self m ms))
      | nil => exact le_refl 0

theorem isCandidate_len {s : String} (h : isCandidate s = true) : 2 < s.length := by
  unfold isCandidate at h
  simp only [Bool.and_eq_true, decide_eq_true_eq] at h
  exact h.1.1.1.1.1.1.1

theorem merchant_names_ne_nil : ∀ n ∈ MERCHANTS, n.data ≠ [] := by decide

theorem extractMerchant_ne_empty (lines : List String)
    (hne : ∀ line ∈ lines, line ≠ "") : extractMerchant lines ≠ "" := by
  cases hf : lines.findSome? merchantHit with
  | some m =>
    have hEq : extractMerchant lines = m := by
      unfold extractMerchant
      rw [hf]
    rw [hEq]
    obtain ⟨line, hline, hm⟩ := findSome_exists hf
    unfold merchantHit at hm
    split_ifs at hm with hwhole
    · injection hm with hm'
      rw [← hm']
      exact hne line hline
    · rw [Option.map_eq_some'] at hm
      obtain ⟨ml, hml, hmm⟩ := hm
      obtain ⟨n, hmem, hci, -⟩ := p2Scan_shape hml
      rw [← hmm]
      intro habs
      have hlen : ml.length = n.data.length := by
        have := congrArg List.length hci
        simpa using this
      have hml0 : ml = [] := by
        have h0 := congrArg String.data habs
        simpa using h0
      rw [hml0] at hlen
      exact merchant_names_ne_nil n hmem (List.eq_nil_of_length_eq_zero hlen.symm)
  | none =>
    cases hc : lines.filter isCandidate with
    | nil =>
      have hEq : extractMerchant lines = "Unknown Merchant" := by
        unfold extractMerchant
        rw [hf, hc]
      rw [hEq]
      decide
    | cons c cs =>
      have hEq : extractMerchant lines = shortestFirst c cs := by
        unfold extractMerchant
        rw [hf, hc]
      rw [hEq]
      have hmem := shortestFirst_mem c cs
      rw [← hc] at hmem
      have hcand := (List.mem_filter.1 hmem).2
      have hlen := isCandidate_len hcand
      intro habs
      rw [habs] at hlen
      simp at hlen

/-- Claim C9: the legacy parser is total: the amount is `≥ 0`, the type
is `"credit"` exactly when the lower-cased text contains a
credit-indicating keyword and `"debit"` otherwise, the description is
never empty; and OCR text with no detectable amount, date or merchant
yields the documented defaults, which the keyword categorizer maps to
`"Uncategorized"`. -/
theorem C9_legacy_parser_total (today text : String) :
    0 ≤ (parseReceiptText today text).amount
    ∧ ((parseReceiptText today text).type = "credit"
        ↔ ∃ k, k ∈ creditIndicators ∧ containsSubS (lowerStr text) k = true)
    ∧ ((parseReceiptText today text).type = "credit"
        ∨ (parseReceiptText today text).type = "debit")
    ∧ (parseReceiptText today text).description ≠ ""
    ∧ parseReceiptText today "** ** **\n--" = ⟨today, "Unknown Merchant", 0, "debit"⟩
    ∧ categorizeTransaction "Unknown Merchant" "debit" = "Uncategorized" := by
  refine ⟨extractAmount_nonneg text (linesOf text), ?_, ?_, ?_, ?_, by decide⟩
  · show extractType text = "credit" ↔ _
    unfold extractType
    constructor
    · intro h
      by_cases hany : creditIndicators.any (fun k => containsSubS (lowerStr text) k) = true
      · rw [List.any_eq_true] at hany
        obtain ⟨k, hk, hck⟩ := hany
        exact ⟨k, hk, hck⟩
      · rw [if_neg (by simp_all)] at h
        exact absurd h (by decide)
    · rintro ⟨k, hk, hck⟩
      rw [if_pos]
      rw [List.any_eq_true]
      exact ⟨k, hk, hck⟩
  · show extractType text = "credit" ∨ extractType text = "debit"
    unfold extractType
    split_ifs <;> [left; right] <;> rfl
  · show extractMerchant (linesOf text) ≠ ""
    refine extractMerchant_ne_empty _ ?_
    intro line hline
    have := (List.mem_filter.1 hline).2
    simpa using this
  · have h1 : extractDate today "** ** **\n--" = today := by
      unfold extractDate
      rw [show (datePatterns.findSome? fun p =>
          match matchFirst p ("** ** **\n--" : String).data with
          | some mc => dateDecode (String.mk mc.1)
          | none => none) = none from by decide]
    unfold parseReceiptText
    rw [h1,
      show extractMerchant (linesOf "** ** **\n--") = "Unknown Merchant" from by decide,
      show extractAmount "** ** **\n--" (linesOf "** ** **\n--") = 0 from by decide,
      show extractType "** ** **\n--" = "debit" from by decide]

/-- Witness for C9: the boundary text evaluated concretely. -/
theorem C9_witness :
    parseReceiptText "2025-01-01" "** ** **\n--"
      = ⟨"2025-01-01", "Unknown Merchant", 0, "debit"⟩ :=
  (C9_legacy_parser_total "2025-01-01" "x").2.2.2.2.1

/-! ## Claim C3 -/

theorem reRunCore_suffix (sf : RE → MState → List MState)
    (hsf : ∀ a st st', st' ∈ sf a st → st'.rest <:+ st.rest) :
    ∀ (r : RE) (st st' : MState), st' ∈ reRunCore sf r st → st'.rest <:+ st.rest := by
  intro r
  induction r with
  | eps =>
    intro st st' h
    simp [reRunCore] at h
    subst h
    exact List.suffix_refl _
  | cls p =>
    intro st st' h
    unfold reRunCore at h
    cases hrest : st.rest with
    | nil => rw [hrest] at h; cases h
    | cons c t =>
      rw [hrest] at h
      have h' : st' ∈ (if p c = true
          then [(⟨some c, t, st.caps⟩ : MState)] else ([] : List MState)) := h
      split_ifs at h'
      · simp at h'
        subst h'
        exact List.suffix_cons c t
      · cases h'
  | seq a b iha ihb =>
    intro st st' h
    rw [show reRunCore sf (.seq a b) st
        = (reRunCore sf a st).flatMap (fun s => reRunCore sf b s) from rfl] at h
    rw [List.mem_flatMap] at h
    obtain ⟨mid, hmid, hst'⟩ := h
    exact (ihb mid st' hst').trans (iha st mid hmid)
  | alt a b iha ihb =>
    intro st st' h
    rw [show reRunCore sf (.alt a b) st
        = reRunCore sf a st ++ reRunCore sf b st from rfl] at h
    rcases List.mem_append.1 h with h1 | h1
    · exact iha st st' h1
    · exact ihb st st' h1
  | star a iha =>
    intro st st' h
    exact hsf a st st' h
  | grp i a iha =>
    intro st st' h
    rw [show reRunCore sf (.grp i a) st = (reRunCore sf a st).map (fun s =>
        ⟨s.prev, s.rest, (i, st.rest.take (st.rest.length - s.rest.length)) :: s.caps⟩)
        from rfl] at h
    rw [List.mem_map] at h
    obtain ⟨mid, hmid, hst'⟩ := h
    rw [← hst']
    exact iha st mid hmid
  | bnd =>
    intro st st' h
    unfold reRunCore at h
    split_ifs at h
    · simp at h
      subst h
      exact List.suffix_refl _
    · cases h
  | endS =>
    intro st st' h
    unfold reRunCore at h
    split_ifs at h
    · simp at h
      subst h
      exact List.suffix_refl _
    · cases h

theorem reRun_suffix (f : Nat) :
    ∀ (r : RE) (st st' : MState), st' ∈ reRun f r st → st'.rest <:+ st.rest := by
  induction f with
  | zero =>
    refine reRunCore_suffix _ ?_
    intro a st st' h
    simp at h
    subst h
    exact List.suffix_refl _
  | succ f ih =>
    refine reRunCore_suffix _ ?_
    intro a st st' h
    rcases List.mem_append.1 h with h1 | h1
    · rw [List.mem_flatMap] at h1
      obtain ⟨mid, hmid, hst'⟩ := h1
      exact (ih (.star a) mid st' hst').trans (ih a st mid hmid)
    · simp at h1
      subst h1
      exact List.suffix_refl _

theorem closeEnd_core (sf : RE → MState → List MState) (st : MState) :
    reRunCore sf (.seq (.cls (fun c => c = closeBrace)) .endS) st
      = match st.rest with
        | [c] => if c = closeBrace then [⟨some c, [], st.caps⟩] else []
        | _ => [] := by
  cases hrest : st.rest with
  | nil => simp [reRunCore, hrest]
  | cons c t =>
    by_cases hc : c = closeBrace
    · cases t with
      | nil => simp [reRunCore, hrest, hc]
      | cons d t' => simp [reRunCore, hrest, hc]
    · cases t with
      | nil => simp [reRunCore, hrest, hc]
      | cons d t' => simp [reRunCore, hrest, hc]

/-- `[\s\S]*` followed by `\x7d$`, with any star fuel handler replaced
by its evaluation (the tail is star-free, so fuel does not matter). -/
theorem seq_star_close_eval (f : Nat) (st : MState) :
    reRun f (.seq (.star (.cls (fun _ => true)))
        (.seq (.cls (fun c => c = closeBrace)) .endS)) st
      = (reRun f (.star (.cls (fun _ => true))) st).flatMap (fun s =>
          match s.rest with
          | [c] => if c = closeBrace then [⟨some c, [], s.caps⟩] else []
          | _ => []) := by
  cases f with
  | zero =>
    rw [reRun_zero, reRun_zero]
    rw [show reRunCore (fun _ st' => [st']) (.seq (.star (.cls (fun _ => true)))
        (.seq (.cls (fun c => c = closeBrace)) .endS)) st
        = (reRunCore (fun _ st' => [st']) (.star (.cls (fun _ => true))) st).flatMap
            (fun s => reRunCore (fun _ st' => [st'])
              (.seq (.cls (fun c => c = closeBrace)) .endS) s) from rfl]
    exact congrArg (fun g => (reRunCore (fun _ st' => [st'])
      (.star (.cls (fun _ => true))) st).flatMap g)
      (funext fun s => closeEnd_core _ s)
  | succ f =>
    rw [reRun_succ, reRun_succ]
    rw [show ∀ sf, reRunCore sf (.seq (.star (.cls (fun _ => true)))
        (.seq (.cls (fun c => c = closeBrace)) .endS)) st
        = (reRunCore sf (.star (.cls (fun _ => true))) st).flatMap
            (fun s => reRunCore sf (.seq (.cls (fun c => c = closeBrace)) .endS) s)
        from fun _ => rfl]
    exact congrArg (fun g => (reRunCore (fun a st' =>
      ((reRun f a st').flatMap fun st'' => reRun f (.star a) st'') ++ [st'])
      (.star (.cls (fun _ => true))) st).flatMap g)
      (funext fun s => closeEnd_core _ s)

theorem star_any_nil (f : Nat) (prev : Option Char) (caps : List (Nat × List Char)) :
    reRun f (.star (.cls (fun _ => true))) ⟨prev, [], caps⟩ = [⟨prev, [], caps⟩] := by
  cases f with
  | zero => rw [reRun_zero]; rfl
  | succ f =>
    rw [reRun_succ]
    have hcls : reRun f (.cls (fun _ => true)) ⟨prev, [], caps⟩ = [] := by
      cases f with
      | zero => rw [reRun_zero]; rfl
      | succ f => rw [reRun_succ]; rfl
    rw [show reRunCore (fun a st' =>
        ((reRun f a st').flatMap fun st'' => reRun f (.star a) st'') ++ [st'])
        (.star (.cls (fun _ => true))) ⟨prev, [], caps⟩
        = ((reRun f (.cls (fun _ => true)) ⟨prev, [], caps⟩).flatMap
            fun st'' => reRun f (.star (.cls (fun _ => true))) st'') ++ [⟨prev, [], caps⟩]
        from rfl, hcls]
    rfl

theorem star_any_cons (f : Nat) (c : Char) (t : List Char) (prev : Option Char)
    (caps : List (Nat × List Char)) :
    reRun (f + 1) (.star (.cls (fun _ => true))) ⟨prev, c :: t, caps⟩
      = reRun f (.star (.cls (fun _ => true))) ⟨some c, t, caps⟩ ++ [⟨prev, c :: t, caps⟩] := by
  rw [reRun_succ]
  have hcls : reRun f (.cls (fun _ => true)) ⟨prev, c :: t, caps⟩ = [⟨some c, t, caps⟩] := by
    cases f with
    | zero => rw [reRun_zero]; simp [reRunCore]
    | succ f => rw [reRun_succ]; simp [reRunCore]
  rw [show reRunCore (fun a st' =>
      ((reRun f a st').flatMap fun st'' => reRun f (.star a) st'') ++ [st'])
      (.star (.cls (fun _ => true))) ⟨prev, c :: t, caps⟩
      = ((reRun f (.cls (fun _ => true)) ⟨prev, c :: t, caps⟩).flatMap
          fun st'' => reRun f (.star (.cls (fun _ => true))) st'') ++ [⟨prev, c :: t, caps⟩]
      from rfl, hcls]
  simp

/-- The greedy `[\s\S]*\x7d$` tail: when the remaining input ends with
a closing brace, the engine's first (committed) end state consumes
everything. -/
theorem starAnyClose_head : ∀ (l : List Char) (f : Nat) (prev : Option Char)
    (caps : List (Nat × List Char)),
    l.getLast? = some closeBrace → l.length ≤ f →
    (reRun f (.seq (.star (.cls (fun _ => true)))
        (.seq (.cls (fun c => c = closeBrace)) .endS)) ⟨prev, l, caps⟩).head?
      = some ⟨some closeBrace, [], caps⟩ := by
  intro l
  induction l with
  | nil =>
    intro f prev caps hlast hlen
    simp at hlast
  | cons c t ih =>
    intro f prev caps hlast hlen
    cases f with
    | zero => simp at hlen
    | succ f =>
      rw [seq_star_close_eval, star_any_cons, List.flatMap_append]
      cases t with
      | nil =>
        have hc : c = closeBrace := by simpa using hlast
        subst hc
        rw [star_any_nil]
        simp
      | cons d t' =>
        have hlast' : (d :: t').getLast? = some closeBrace :=
          List.getLast?_cons_cons ▸ hlast
        have hlen' : (d :: t').length ≤ f := by
          simp only [List.length_cons] at hlen ⊢
          omega
        have ihs := ih f (some c) caps hlast' hlen'
        rw [seq_star_close_eval] at ihs
        have hx : ((reRun f (.star (.cls fun _ => true)) ⟨some c, d :: t', caps⟩).flatMap
            (fun s => match s.rest with
              | [c] => if c = closeBrace then [(⟨some c, [], s.caps⟩ : MState)] else []
              | _ => ([] : List MState))) ≠ [] := by
          intro h0
          rw [h0] at ihs
          cases ihs
        rw [List.head?_append_of_ne_nil _ hx]
        exact ihs

/-- A position whose head is not an opening brace cannot start a
`jsonPat` match. -/
theorem jsonPat_fail {st : MState} (h : st.rest.head? ≠ some openBrace) (f : Nat) :
    reRun f jsonPat st = [] := by
  have hstep : ∀ sf, reRunCore sf jsonPat st
      = (reRunCore sf (.cls (fun c => c = openBrace)) st).flatMap
          (fun s => reRunCore sf (.seq (.star (.cls (fun _ => true)))
            (.seq (.cls (fun c => c = closeBrace)) .endS)) s) := fun _ => rfl
  have hopen : ∀ sf, reRunCore sf (.cls (fun c => c = openBrace)) st = [] := by
    intro sf
    unfold reRunCore
    cases hrest : st.rest with
    | nil => rfl
    | cons c t =>
      have hc : ¬ (c = openBrace) := by
        intro hcc
        rw [hrest, hcc] at h
        exact h rfl
      simp [hc]
  cases f with
  | zero => rw [reRun_zero, hstep, hopen]; rfl
  | succ f => rw [reRun_succ, hstep, hopen]; rfl

/-- A `jsonPat` match at a position whose input starts with `\x7b` and
ends with `\x7d`: the committed match consumes the whole input. -/
theorem jsonPat_succeed {l : List Char} (f : Nat) (prev : Option Char)
    (hopen : l.head? = some openBrace) (hlast : l.getLast? = some closeBrace)
    (hlen : l.length ≤ f + 1) :
    (reRun (f + 1) jsonPat ⟨prev, l, []⟩).head? = some ⟨some closeBrace, [], []⟩ := by
  cases l with
  | nil => simp at hopen
  | cons c t =>
    have hc : c = openBrace := by simpa using hopen
    subst hc
    have ht : t ≠ [] := by
      intro h0
      subst h0
      have : openBrace = closeBrace := by simpa using hlast
      exact absurd this (by decide)
    have hlast' : t.getLast? = some closeBrace := by
      cases t with
      | nil => exact absurd rfl ht
      | cons d t' =>
        exact List.getLast?_cons_cons ▸ hlast
    have hlen' : t.length ≤ f + 1 := by
      simp only [List.length_cons] at hlen
      omega
    have hmain : reRun (f + 1) jsonPat ⟨prev, openBrace :: t, []⟩
        = reRun (f + 1) (.seq (.star (.cls (fun _ => true)))
            (.seq (.cls (fun c => c = closeBrace)) .endS)) ⟨some openBrace, t, []⟩ := by
      rw [reRun_succ, reRun_succ]
      rw [show reRunCore (fun a st' =>
            ((reRun f a st').flatMap fun st'' => reRun f (.star a) st'') ++ [st'])
            jsonPat (⟨prev, openBrace :: t, []⟩ : MState)
          = (reRunCore (fun a st' =>
              ((reRun f a st').flatMap fun st'' => reRun f (.star a) st'') ++ [st'])
              (.cls (fun c => c = openBrace)) ⟨prev, openBrace :: t, []⟩).flatMap
              (fun s => reRunCore (fun a st' =>
                ((reRun f a st').flatMap fun st'' => reRun f (.star a) st'') ++ [st'])
                (.seq (.star (.cls (fun _ => true)))
                  (.seq (.cls (fun c => c = closeBrace)) .endS)) s) from rfl]
      rw [show reRunCore (fun a st' =>
            ((reRun f a st').flatMap fun st'' => reRun f (.star a) st'') ++ [st'])
            (.cls (fun c => c = openBrace)) (⟨prev, openBrace :: t, []⟩ : MState)
          = [(⟨some openBrace, t, []⟩ : MState)] from by simp [reRunCore]]
      rw [List.flatMap_cons, List.flatMap_nil, List.append_nil]
    rw [hmain]
    exact starAnyClose_head t (f + 1) (some openBrace) [] hlast' hlen'

/-- Any end state of `jsonPat` forces the input at that position to
end with a closing brace (the `$`-anchored close). -/
theorem jsonPat_core_last {sf : RE → MState → List MState}
    (hsf : ∀ (a : RE) (st st' : MState), st' ∈ sf a st → st'.rest <:+ st.rest)
    {st st' : MState} (h : st' ∈ reRunCore sf jsonPat st) :
    st.rest.getLast? = some closeBrace := by
  have hstep : reRunCore sf jsonPat st
      = (reRunCore sf (.cls (fun c => c = openBrace)) st).flatMap
          (fun s => reRunCore sf (.seq (.star (.cls (fun _ => true)))
            (.seq (.cls (fun c => c = closeBrace)) .endS)) s) := rfl
  rw [hstep, List.mem_flatMap] at h
  obtain ⟨s1, hs1, hst'⟩ := h
  cases hrest : st.rest with
  | nil =>
    rw [show reRunCore sf (.cls (fun c => c = openBrace)) st
        = (match st.rest with
           | [] => []
           | c :: t => if decide (c = openBrace) = true
               then [(⟨some c, t, st.caps⟩ : MState)] else []) from rfl, hrest] at hs1
    simp at hs1
  | cons c t =>
    rw [show reRunCore sf (.cls (fun c => c = openBrace)) st
        = (match st.rest with
           | [] => []
           | c :: t => if decide (c = openBrace) = true
               then [(⟨some c, t, st.caps⟩ : MState)] else []) from rfl, hrest] at hs1
    replace hs1 : s1 ∈ (if decide (c = openBrace) = true
        then [(⟨some c, t, st.caps⟩ : MState)] else ([] : List MState)) := hs1
    split_ifs at hs1 with hc
    · simp only [List.mem_singleton] at hs1
      subst hs1
      have hstep2 : reRunCore sf (.seq (.star (.cls (fun _ => true)))
          (.seq (.cls (fun c => c = closeBrace)) .endS)) ⟨some c, t, st.caps⟩
          = (sf (.cls (fun _ => true)) ⟨some c, t, st.caps⟩).flatMap
              (fun s2 => match s2.rest with
                | [cc] => if cc = closeBrace then [(⟨some cc, [], s2.caps⟩ : MState)] else []
                | _ => []) := by
        rw [show reRunCore sf (.seq (.star (.cls (fun _ => true)))
            (.seq (.cls (fun c => c = closeBrace)) .endS)) (⟨some c, t, st.caps⟩ : MState)
            = (sf (.cls (fun _ => true)) ⟨some c, t, st.caps⟩).flatMap
                (fun s2 => reRunCore sf
                  (.seq (.cls (fun c => c = closeBrace)) .endS) s2) from rfl]
        exact congrArg (fun g => (sf (.cls (fun _ => true)) ⟨some c, t, st.caps⟩).flatMap g)
          (funext fun s2 => closeEnd_core sf s2)
      rw [hstep2, List.mem_flatMap] at hst'
      obtain ⟨s2, hs2, hcl⟩ := hst'
      have hs2rest : s2.rest = [closeBrace] := by
        cases hr : s2.rest with
        | nil => rw [hr] at hcl; cases hcl
        | cons cc t2 =>
          cases t2 with
          | nil =>
            rw [hr] at hcl
            replace hcl : st' ∈ (if cc = closeBrace
                then [(⟨some cc, [], s2.caps⟩ : MState)] else ([] : List MState)) := hcl
            split_ifs at hcl with hcc
            · rw [hcc]
            · cases hcl
          | cons dd t3 => rw [hr] at hcl; cases hcl
      have hsuf := hsf _ _ _ hs2
      rw [hs2rest] at hsuf
      obtain ⟨pre, hpre⟩ := hsuf
      have : t = pre ++ [closeBrace] := by
        have h1 : s2.rest = [closeBrace] := hs2rest
        exact hpre.symm
      rw [this, ← List.cons_append]
      exact List.getLast?_concat _
    · cases hs1

theorem jsonPat_mem_last (f : Nat) {st st' : MState} (h : st' ∈ reRun f jsonPat st) :
    st.rest.getLast? = some closeBrace := by
  cases f with
  | zero =>
    rw [reRun_zero] at h
    refine jsonPat_core_last ?_ h
    intro a st1 st1' h'
    simp at h'
    subst h'
    exact List.suffix_refl _
  | succ g =>
    rw [reRun_succ] at h
    refine jsonPat_core_last ?_ h
    intro a st1 st1' h'
    rcases List.mem_append.1 h' with h1 | h1
    · rw [List.mem_flatMap] at h1
      obtain ⟨mid, hmid, hst1'⟩ := h1
      exact (reRun_suffix g (.star a) mid st1' hst1').trans (reRun_suffix g a st1 mid hmid)
    · simp at h1
      subst h1
      exact List.suffix_refl _

/-- No end state exists when the input at a position does not end with
a closing brace. -/
theorem jsonPat_no_match {st : MState} (hlast : st.rest.getLast? ≠ some closeBrace)
    (f : Nat) : reRun f jsonPat st = [] := by
  by_contra habs
  obtain ⟨st', hst'⟩ := List.exists_mem_of_ne_nil _ habs
  exact hlast (jsonPat_mem_last f hst')

theorem scanPos_jsonPat_none : ∀ (l : List Char) (f : Nat) (prev : Option Char),
    l.getLast? ≠ some closeBrace → scanPos f jsonPat prev l = none := by
  intro l
  induction l with
  | nil =>
    intro f prev h
    unfold scanPos
    rw [jsonPat_no_match h f]
    rfl
  | cons c t ih =>
    intro f prev h
    unfold scanPos
    rw [jsonPat_no_match h f]
    show scanPos f jsonPat (some c) t = none
    refine ih f (some c) ?_
    cases t with
    | nil => simp
    | cons d t' =>
      intro hh
      exact h (by rw [List.getLast?_cons_cons]; exact hh)

theorem matchFirst_jsonPat_none {s : List Char} (h : s.getLast? ≠ some closeBrace) :
    matchFirst jsonPat s = none :=
  scanPos_jsonPat_none s _ none h

theorem scanPos_jsonPat_found : ∀ (pre body : List Char) (f : Nat) (prev : Option Char),
    (∀ c ∈ pre, c ≠ openBrace) → body.head? = some openBrace →
    body.getLast? = some closeBrace → body.length ≤ f →
    scanPos f jsonPat prev (pre ++ body) = some (body, []) := by
  intro pre
  induction pre with
  | nil =>
    intro body f prev hpre hopen hlast hlen
    cases body with
    | nil => simp at hopen
    | cons c t =>
      cases f with
      | zero => simp at hlen
      | succ f =>
        rw [List.nil_append]
        unfold scanPos
        rw [jsonPat_succeed f prev hopen hlast hlen]
        show some ((c :: t).take ((c :: t).length - List.length []), ([] : List (Nat × List Char)))
          = some (c :: t, [])
        rw [List.length_nil, Nat.sub_zero, List.take_length]
  | cons p ps ih =>
    intro body f prev hpre hopen hlast hlen
    have hph : ((p :: (ps ++ body)) : List Char).head? ≠ some openBrace := by
      simp only [List.head?_cons]
      intro hh
      exact hpre p (List.mem_cons_self _ _) (by injection hh)
    rw [List.cons_append]
    unfold scanPos
    rw [jsonPat_fail hph f]
    show scanPos f jsonPat (some p) (ps ++ body) = some (body, [])
    exact ih body f (some p) (fun c hc => hpre c (List.mem_cons.2 (Or.inr hc)))
      hopen hlast hlen

/-- `Modelled from the spec`: the substring from the first opening
brace to the last closing brace of the text (the claim's reading of the
JSON-location step), used as the comparison point for the
counterexample. -/
def specFirstLastBrace (s : String) : Option String :=
  match s.data.findIdx? (fun c => c = openBrace),
        s.data.reverse.findIdx? (fun c => c = closeBrace) with
  | some i, some jr =>
    let j := s.data.length - 1 - jr
    if i ≤ j then some (String.mk ((s.data.take (j + 1)).drop i)) else none
  | _, _ => none

/-- Claim C3 (counterexample): a response with commentary appended
after the closing brace.  The claim says the substring from the first
`\x7b` to the last `\x7d` is parsed (here `"\x7b\x7d"`, a valid JSON
object, so the result would be a success); the code's regex is
`$`-anchored and reports `"No JSON found in response"`. -/
theorem C3_counterexample :
    extractJson (fun m => some m) "\x7b\x7d trailing"
        = .error "No JSON found in response"
    ∧ specFirstLastBrace "\x7b\x7d trailing" = some "\x7b\x7d" :=
  ⟨by decide, by decide⟩

/-- Claim C3 (amended): `extractJson` locates the first `\x7b` and
requires the **last character of the text** to be `\x7d` (the regex is
anchored with `$`): prepended commentary is tolerated (the match runs
from the first `\x7b` to the end), but a text not ending in `\x7d` —
in particular one with appended commentary — yields the
`"No JSON found in response"` error; a matched substring that fails the
strict JSON parse yields `"Invalid JSON in response"`. -/
theorem C3_json_extraction :
    (∀ (J : Type) (parse : String → Option J) (s : String),
      s.data.getLast? ≠ some closeBrace →
      extractJson parse s = .error "No JSON found in response")
    ∧ (∀ (J : Type) (parse : String → Option J) (pre body : String),
      (∀ c ∈ pre.data, c ≠ openBrace) →
      body.data.head? = some openBrace →
      body.data.getLast? = some closeBrace →
      extractJson parse (pre ++ body)
        = match parse body with
          | some v => Except.ok v
          | none => Except.error "Invalid JSON in response") := by
  constructor
  · intro J parse s h
    unfold extractJson extractJsonCand
    rw [matchFirst_jsonPat_none h]
    rfl
  · intro J parse pre body hpre hopen hlast
    have hcand : extractJsonCand (pre ++ body) = some body := by
      unfold extractJsonCand matchFirst
      rw [String.data_append]
      rw [scanPos_jsonPat_found pre.data body.data _ none hpre hopen hlast
        (by rw [List.length_append]; omega)]
      rfl
    unfold extractJson
    rw [hcand]

/-- Witness for C3: prepended noise is tolerated and the object is
recovered whole. -/
theorem C3_witness :
    extractJson (fun m => some m) ("noise " ++ "\x7bx\x7d") = .ok "\x7bx\x7d" :=
  (C3_json_extraction.2 String (fun m => some m) "noise " "\x7bx\x7d"
    (by decide) (by decide) (by decide)).trans rfl

/-- Claim C7 (counterexample): the claim lists numeric `D/M/Y` among
the supported formats, so on `"19/09/2025"` (day 19, month 9 in
`D/M/Y`) `extractDate` would have to return `"2025-09-19"`.  The code
hands the matched string to `new Date`, whose parser reads an
unpadded numeric triple month-first; month 19 is invalid, every later
pattern also fails, and the processing date is returned instead. -/
theorem C7_counterexample :
    extractDate "2026-04-01" "19/09/2025" = "2026-04-01"
    ∧ ("2026-04-01" : String) ≠ "2025-09-19" :=
  ⟨by decide, by decide⟩

/-- Claim C7 (amended): when no date pattern matches anywhere in the
text, `extractDate` returns the current processing date; and the
supported formats are decoded to the correct `YYYY-MM-DD` — weekday +
month-name + day + year, month-name + day + year, numeric `M/D/Y`
(month-first, not day-first) with `/`, `-` or `.` separators, `Y/M/D`
with a four-digit year first, and `D MonthName Y` — as the concrete
instances show (month names via the three-letter lookup table, the
numeric triples via the JavaScript `Date` parser). -/
theorem C7_date_extraction :
    (∀ (today text : String),
      (∀ p ∈ datePatterns, matchFirst p text.data = none) →
      extractDate today text = today)
    ∧ extractDate "2026-04-01" "Fri, Sep 19, 2025" = "2025-09-19"
    ∧ extractDate "2026-04-01" "Sep 19, 2025" = "2025-09-19"
    ∧ extractDate "2026-04-01" "09/19/2025" = "2025-09-19"
    ∧ extractDate "2026-04-01" "12.05.2025" = "2025-12-05"
    ∧ extractDate "2026-04-01" "2025-09-19" = "2025-09-19"
    ∧ extractDate "2026-04-01" "19 Sep 2025" = "2025-09-19" := by
  refine ⟨?_, by decide, by decide, by decide, by decide, by decide, by decide⟩
  intro today text h
  unfold extractDate
  have hz : datePatterns.findSome? (fun p =>
      match matchFirst p text.data with
      | some mc => dateDecode (String.mk mc.1)
      | none => none) = none := by
    rw [List.findSome?_eq_none_iff]
    intro p hp
    rw [h p hp]
  rw [hz]

/-- Witness for C7: a text with no date at all yields the processing
date. -/
theorem C7_witness : extractDate "2026-04-01" "no digits here" = "2026-04-01" :=
  C7_date_extraction.1 "2026-04-01" "no digits here" (by decide)

end BudgetSnap
